import Mathlib

/-!
Verification development for the NACME onboarding server
(`nacme/server.py`): a shallow embedding in Lean 4 of the data model and
the operations of the admission / allocation / onboarding engine, together
with theorems about its behaviour.

Conventions of the embedding:
* SQLite rows become Lean structures; the `hosts` and `api_keys` tables
  become lists of those structures inside a `DB` structure.
* Machine-external effects (the `secrets` randomness, the `nebula-cert`
  signer process, concurrent readers) are supplied by an explicit
  environment (`Env`) of oracles; theorems quantify over all environments.
* Python string functions used by the server (`str.strip`, `re.sub`,
  `ipaddress` parsing and printing) are re-implemented structurally over
  `List Char` so that every definition evaluates by kernel reduction.
* Fallible Python code (raising `ValueError` / `HTTPException` /
  `RuntimeError`) becomes `Except`-valued Lean code; commit/rollback of
  the per-request transaction (`get_db`) becomes "return the new DB on
  commit, the unchanged DB on rollback".
-/

/-! ## Generic character-list utilities (models of Python string operations) -/

/-- Splits a character list on a separator character, keeping empty pieces,
like Python's `str.split(sep)`. -/
def splitChar (sep : Char) : List Char → List (List Char)
  | [] => [[]]
  | c :: rest =>
    match splitChar sep rest with
    | [] => [[]]
    | g :: gs => if c = sep then [] :: g :: gs else (c :: g) :: gs

/-- Naive substring test over character lists; `containsSub` below models
Python's `needle in haystack`. -/
def containsSubAux (needle : List Char) : List Char → Bool
  | [] => needle.isEmpty
  | c :: rest => needle.isPrefixOf (c :: rest) || containsSubAux needle rest

/-- Models the Python substring operator `needle in haystack`. -/
def containsSub (needle hay : String) : Bool :=
  containsSubAux needle.data hay.data

/-- Drops a trailing run of characters satisfying `p`. -/
def dropTrailWhile (p : Char → Bool) (l : List Char) : List Char :=
  ((l.reverse).dropWhile p).reverse

/-- Models Python's `str.strip()` (whitespace removal at both ends). -/
def pyStrip (s : String) : String :=
  ⟨dropTrailWhile Char.isWhitespace (s.data.dropWhile Char.isWhitespace)⟩

/-- Models Python's `str.strip('-')`. -/
def stripHyphens (l : List Char) : List Char :=
  dropTrailWhile (fun c => c = '-') (l.dropWhile (fun c => c = '-'))

/-- Models Python's `str.rstrip('-')`. -/
def rstripHyphens (s : String) : String :=
  ⟨dropTrailWhile (fun c => c = '-') s.data⟩

/-- Models Python's `str.lower()` (ASCII case folding suffices here: the
strings the server lowercases are ASCII diagnostics). -/
def lowerStr (s : String) : String :=
  ⟨s.data.map Char.toLower⟩

/-- `collapseAux afterHyphen l` copies `l` while collapsing every run of
hyphens to a single hyphen; `afterHyphen` records whether the previous
emitted character was a hyphen. -/
def collapseAux : Bool → List Char → List Char
  | _, [] => []
  | afterHyphen, c :: rest =>
    if c = '-' then
      if afterHyphen then collapseAux true rest
      else '-' :: collapseAux true rest
    else c :: collapseAux false rest

/-- Models Python's `re.sub(r"-+", "-", v)`. -/
def collapseHyphens (l : List Char) : List Char := collapseAux false l

/-- The character class `[a-zA-Z0-9-]` of the server's hostname-stem
regular expression. -/
def isAllowedChar (c : Char) : Bool :=
  c.isAlpha || c.isDigit || c = '-'

/-! ## The hostname-stem sanitizer

Models the pydantic field validator `AddRequest.sanitize_hostname_prefix`
(`server.py` lines 197-226).  The validator strips whitespace, rejects
length over 63, rejects characters outside `[a-zA-Z0-9-]` (the regex
`^[a-zA-Z0-9-]+$` on the stripped value, which is equivalent to "non-empty
and every character allowed" because stripping already removed any
trailing newline), collapses hyphen runs, strips boundary hyphens, and
rejects the empty result. -/

/-- The string-level core of `sanitize_hostname_prefix`. -/
def sanitizeStem (v : String) : Except String String :=
  let v1 := pyStrip v
  if v1.data.length > 63 then
    .error "hostname_prefix must be 63 characters or less"
  else if v1.data.isEmpty || !(v1.data.all isAllowedChar) then
    .error "hostname_prefix may only contain letters, numbers, and hyphens"
  else
    let v2 := collapseHyphens v1.data
    let v3 := stripHyphens v2
    if v3.isEmpty then .error "hostname_prefix cannot be empty after sanitization"
    else .ok ⟨v3⟩

/-- The full validator including the `None` pass-through. -/
def sanitizeHostnameStem : Option String → Except String (Option String)
  | none => .ok none
  | some v => (sanitizeStem v).map some

example : sanitizeStem "--Light--House--" = .ok "Light-House" := by rfl
example : sanitizeStem "lighthouse" = .ok "lighthouse" := by rfl
example : sanitizeStem "  a  " = .ok "a" := by rfl
example : (sanitizeStem "a_b").isOk = false := by decide
example : (sanitizeStem "---").isOk = false := by decide

/-! ### Auxiliary facts about the sanitizer -/

theorem head?_dropWhile_false {p : Char → Bool} {l : List Char} {c : Char}
    (h : (l.dropWhile p).head? = some c) : p c = false := by
  have h2 := List.head?_dropWhile_not p l
  rw [h] at h2
  exact h2

theorem dropWhile_eq_self_of_head {p : Char → Bool} {l : List Char}
    (h : ∀ c, l.head? = some c → p c = false) : l.dropWhile p = l := by
  cases l with
  | nil => rfl
  | cons a t => simp [List.dropWhile_cons, h a rfl]

theorem dropTrailWhile_pre (p : Char → Bool) (l : List Char) :
    dropTrailWhile p l <+: l := by
  obtain ⟨t, ht⟩ := List.dropWhile_suffix (l := l.reverse) p
  refine ⟨t.reverse, ?_⟩
  show (l.reverse.dropWhile p).reverse ++ t.reverse = l
  rw [← List.reverse_append, ht, List.reverse_reverse]

theorem getLast?_dropTrailWhile_false {p : Char → Bool} {l : List Char} {c : Char}
    (h : (dropTrailWhile p l).getLast? = some c) : p c = false := by
  unfold dropTrailWhile at h
  rw [List.getLast?_reverse] at h
  exact head?_dropWhile_false h

theorem dropTrailWhile_eq_self_of_getLast {p : Char → Bool} {l : List Char}
    (h : ∀ c, l.getLast? = some c → p c = false) : dropTrailWhile p l = l := by
  unfold dropTrailWhile
  rw [dropWhile_eq_self_of_head, List.reverse_reverse]
  intro c hc
  rw [List.head?_reverse] at hc
  exact h c hc

theorem head?_of_pre {l₁ l₂ : List Char} (h : l₁ <+: l₂) (hne : l₁ ≠ []) :
    l₂.head? = l₁.head? := by
  obtain ⟨t, rfl⟩ := h
  cases l₁ with
  | nil => exact absurd rfl hne
  | cons a s => rfl

/-- `noDouble l` holds when `l` has no two adjacent hyphens. -/
def noDouble : List Char → Bool
  | [] => true
  | [_] => true
  | a :: b :: t => !(a == '-' && b == '-') && noDouble (b :: t)

theorem noDouble_cons_iff {a : Char} {l : List Char} :
    noDouble (a :: l) = true ↔
      noDouble l = true ∧ ¬(a = '-' ∧ l.head? = some '-') := by
  cases l with
  | nil => simp [noDouble]
  | cons b t =>
    simp only [noDouble, Bool.and_eq_true, Bool.not_eq_true', Bool.and_eq_false_iff,
      beq_eq_false_iff_ne, ne_eq, List.head?_cons, Option.some.injEq]
    constructor
    · rintro ⟨h1, h2⟩
      exact ⟨h2, by rintro ⟨rfl, rfl⟩; rcases h1 with h | h <;> exact h rfl⟩
    · rintro ⟨h2, h1⟩
      refine ⟨?_, h2⟩
      by_cases ha : a = '-'
      · right; intro hb; exact h1 ⟨ha, hb⟩
      · left; exact ha

theorem noDouble_tail {a : Char} {l : List Char} (h : noDouble (a :: l) = true) :
    noDouble l = true :=
  (noDouble_cons_iff.mp h).1

theorem noDouble_append_right {l₁ l₂ : List Char}
    (h : noDouble (l₁ ++ l₂) = true) : noDouble l₂ = true := by
  induction l₁ with
  | nil => exact h
  | cons a t ih => exact ih (noDouble_tail h)

theorem noDouble_append_left {l₁ l₂ : List Char}
    (h : noDouble (l₁ ++ l₂) = true) : noDouble l₁ = true := by
  induction l₁ with
  | nil => rfl
  | cons a t ih =>
    rw [List.cons_append] at h
    obtain ⟨h1, h2⟩ := noDouble_cons_iff.mp h
    refine noDouble_cons_iff.mpr ⟨ih h1, ?_⟩
    rintro ⟨rfl, hh⟩
    apply h2
    refine ⟨rfl, ?_⟩
    cases t with
    | nil => exact absurd hh (by simp)
    | cons x s => simpa using hh

theorem noDouble_of_suffix {l₁ l₂ : List Char} (h : l₁ <:+ l₂)
    (hd : noDouble l₂ = true) : noDouble l₁ = true := by
  obtain ⟨t, rfl⟩ := h
  exact noDouble_append_right hd

theorem noDouble_of_pre {l₁ l₂ : List Char} (h : l₁ <+: l₂)
    (hd : noDouble l₂ = true) : noDouble l₁ = true := by
  obtain ⟨t, rfl⟩ := h
  exact noDouble_append_left hd

theorem collapseAux_true_head (l : List Char) :
    ∀ c, (collapseAux true l).head? = some c → c ≠ '-' := by
  induction l with
  | nil => intro c h; simp [collapseAux] at h
  | cons a t ih =>
    intro c h
    by_cases ha : a = '-'
    · subst ha
      simp only [collapseAux, if_pos rfl, if_true] at h
      exact ih c h
    · simp only [collapseAux, if_neg ha, List.head?_cons, Option.some.injEq] at h
      subst h
      exact ha

theorem noDouble_collapseAux : ∀ (b : Bool) (l : List Char),
    noDouble (collapseAux b l) = true := by
  intro b l
  induction l generalizing b with
  | nil => cases b <;> rfl
  | cons a t ih =>
    by_cases ha : a = '-'
    · subst ha
      cases b with
      | true => simpa [collapseAux] using ih true
      | false =>
        simp only [collapseAux, if_pos rfl, if_false, Bool.false_eq_true, ite_false]
        refine noDouble_cons_iff.mpr ⟨ih true, ?_⟩
        rintro ⟨-, hh⟩
        exact collapseAux_true_head t '-' hh rfl
    · simp only [collapseAux, if_neg ha]
      refine noDouble_cons_iff.mpr ⟨ih false, ?_⟩
      rintro ⟨rfl, -⟩
      exact ha rfl

theorem collapseAux_hyphen_true (t : List Char) :
    collapseAux true ('-' :: t) = collapseAux true t := rfl

theorem collapseAux_hyphen_false (t : List Char) :
    collapseAux false ('-' :: t) = '-' :: collapseAux true t := rfl

theorem collapseAux_other (b : Bool) {a : Char} (ha : a ≠ '-') (t : List Char) :
    collapseAux b (a :: t) = a :: collapseAux false t := by
  cases b <;> simp [collapseAux, ha]

theorem collapseAux_eq_self : ∀ (b : Bool) (l : List Char),
    noDouble l = true → (b = true → l.head? ≠ some '-') → collapseAux b l = l := by
  intro b l
  induction l generalizing b with
  | nil => intro _ _; cases b <;> rfl
  | cons a t ih =>
    intro hnd hb
    obtain ⟨ht, hpair⟩ := noDouble_cons_iff.mp hnd
    by_cases ha : a = '-'
    · subst ha
      cases b with
      | true => exact absurd (hb rfl) (by simp)
      | false =>
        rw [collapseAux_hyphen_false, ih true ht]
        intro _ hh
        exact hpair ⟨rfl, hh⟩
    · rw [collapseAux_other _ ha, ih false ht (by intro h; cases h)]

theorem mem_collapseAux {c : Char} : ∀ (b : Bool) (l : List Char),
    c ∈ collapseAux b l → c ∈ l := by
  intro b l
  induction l generalizing b with
  | nil => intro h; cases b <;> simp [collapseAux] at h
  | cons a t ih =>
    intro h
    by_cases ha : a = '-'
    · subst ha
      cases b with
      | true =>
        rw [collapseAux_hyphen_true] at h
        exact List.mem_cons_of_mem _ (ih true h)
      | false =>
        rw [collapseAux_hyphen_false, List.mem_cons] at h
        rcases h with h | h
        · exact h ▸ List.mem_cons_self _ _
        · exact List.mem_cons_of_mem _ (ih true h)
    · rw [collapseAux_other _ ha, List.mem_cons] at h
      rcases h with h | h
      · exact h ▸ List.mem_cons_self _ _
      · exact List.mem_cons_of_mem _ (ih false h)

theorem length_collapseAux_le : ∀ (b : Bool) (l : List Char),
    (collapseAux b l).length ≤ l.length := by
  intro b l
  induction l generalizing b with
  | nil => cases b <;> simp [collapseAux]
  | cons a t ih =>
    by_cases ha : a = '-'
    · subst ha
      cases b with
      | true =>
        rw [collapseAux_hyphen_true]
        exact le_trans (ih true) (Nat.le_succ _)
      | false =>
        rw [collapseAux_hyphen_false, List.length_cons, List.length_cons]
        exact Nat.succ_le_succ (ih true)
    · rw [collapseAux_other _ ha, List.length_cons, List.length_cons]
      exact Nat.succ_le_succ (ih false)

theorem allowedChar_not_ws {c : Char} (h : isAllowedChar c = true) :
    c.isWhitespace = false := by
  have h1 : c ≠ ' ' := by rintro rfl; simp [isAllowedChar, Char.isAlpha,
    Char.isUpper, Char.isLower, Char.isDigit] at h
  have h2 : c ≠ '\t' := by rintro rfl; simp [isAllowedChar, Char.isAlpha,
    Char.isUpper, Char.isLower, Char.isDigit] at h
  have h3 : c ≠ '\r' := by rintro rfl; simp [isAllowedChar, Char.isAlpha,
    Char.isUpper, Char.isLower, Char.isDigit] at h
  have h4 : c ≠ '\n' := by rintro rfl; simp [isAllowedChar, Char.isAlpha,
    Char.isUpper, Char.isLower, Char.isDigit] at h
  simp [Char.isWhitespace, h1, h2, h3, h4]

theorem mem_of_head? {l : List Char} {c : Char} (h : l.head? = some c) : c ∈ l := by
  cases l with
  | nil => cases h
  | cons a t => rw [List.head?_cons, Option.some.injEq] at h; exact h ▸ List.mem_cons_self _ _

theorem mem_of_getLast? {l : List Char} {c : Char} (h : l.getLast? = some c) : c ∈ l := by
  rw [List.getLast?_eq_head?_reverse] at h
  have := mem_of_head? h
  simpa using this

theorem stripHyphens_sublist (l : List Char) : List.Sublist (stripHyphens l) l := by
  unfold stripHyphens
  exact ((dropTrailWhile_pre _ _).sublist).trans (List.dropWhile_sublist _)

/-- Everything `sanitizeStem` accepts is canonical: only allowed characters,
length at most 63, non-empty, no adjacent hyphens, and no boundary hyphen. -/
theorem sanitizeStem_ok_canon {v w : String} (h : sanitizeStem v = .ok w) :
    (∀ c ∈ w.data, isAllowedChar c = true) ∧ w.data.length ≤ 63 ∧ w.data ≠ [] ∧
      noDouble w.data = true ∧ w.data.head? ≠ some '-' ∧ w.data.getLast? ≠ some '-' := by
  simp only [sanitizeStem] at h
  split at h
  · cases h
  · rename_i h63
    split at h
    · cases h
    · rename_i hchar
      split at h
      · cases h
      · rename_i hne3
        injection h with h
        subst h
        rw [Bool.or_eq_true, not_or, Bool.not_eq_true] at hchar
        obtain ⟨hchar1, hchar0⟩ := hchar
        have hchar2 : ∀ c ∈ (pyStrip v).data, isAllowedChar c = true := by
          rw [← List.all_eq_true]
          simpa using hchar0
        dsimp only
        have hmem : ∀ c ∈ stripHyphens (collapseHyphens (pyStrip v).data),
            c ∈ (pyStrip v).data := fun c hc =>
          mem_collapseAux false _ ((stripHyphens_sublist _).mem hc)
        have hnev3 : stripHyphens (collapseHyphens (pyStrip v).data) ≠ [] := by
          intro hh
          exact hne3 (by rw [hh]; rfl)
        have hndv3 : noDouble (stripHyphens (collapseHyphens (pyStrip v).data)) = true := by
          have h1 : noDouble (collapseHyphens (pyStrip v).data) = true :=
            noDouble_collapseAux false _
          unfold stripHyphens
          exact noDouble_of_pre (dropTrailWhile_pre _ _)
            (noDouble_of_suffix (List.dropWhile_suffix _) h1)
        refine ⟨fun c hc => hchar2 c (hmem c hc), ?_, hnev3, hndv3, ?_, ?_⟩
        · have l1 : (stripHyphens (collapseHyphens (pyStrip v).data)).length ≤
              (collapseHyphens (pyStrip v).data).length :=
            (stripHyphens_sublist _).length_le
          have l2 : (collapseHyphens (pyStrip v).data).length ≤ (pyStrip v).data.length :=
            length_collapseAux_le false _
          omega
        · intro hh
          unfold stripHyphens at hh hnev3
          have hp := head?_of_pre (dropTrailWhile_pre _ _) hnev3
          rw [hh] at hp
          have := head?_dropWhile_false hp
          simp at this
        · intro hh
          unfold stripHyphens at hh
          have := getLast?_dropTrailWhile_false hh
          simp at this

/-- A canonical string is a fixed point of `sanitizeStem`. -/
theorem sanitizeStem_canon_fix {w : String}
    (hall : ∀ c ∈ w.data, isAllowedChar c = true) (hlen : w.data.length ≤ 63)
    (hne : w.data ≠ []) (hnd : noDouble w.data = true)
    (hhead : w.data.head? ≠ some '-') (hlast : w.data.getLast? ≠ some '-') :
    sanitizeStem w = .ok w := by
  have hdw : w.data.dropWhile Char.isWhitespace = w.data :=
    dropWhile_eq_self_of_head fun c hc =>
      allowedChar_not_ws (hall c (mem_of_head? hc))
  have hdt : dropTrailWhile Char.isWhitespace w.data = w.data :=
    dropTrailWhile_eq_self_of_getLast fun c hc =>
      allowedChar_not_ws (hall c (mem_of_getLast? hc))
  have hstrip : pyStrip w = w := by
    unfold pyStrip
    rw [hdw, hdt]
  have hcoll : collapseHyphens w.data = w.data :=
    collapseAux_eq_self false w.data hnd (by intro hh; cases hh)
  have hsh : stripHyphens w.data = w.data := by
    unfold stripHyphens
    have h1 : w.data.dropWhile (fun c => c = '-') = w.data :=
      dropWhile_eq_self_of_head fun c hc => by
        simp only [decide_eq_false_iff_not]
        intro hcc
        exact hhead (hcc ▸ hc)
    rw [h1]
    exact dropTrailWhile_eq_self_of_getLast fun c hc => by
      simp only [decide_eq_false_iff_not]
      intro hcc
      exact hlast (hcc ▸ hc)
  have hne2 : w.data.isEmpty = false := by
    cases hd : w.data with
    | nil => exact absurd hd hne
    | cons a t => rfl
  simp only [sanitizeStem, hstrip, hcoll, hsh]
  rw [if_neg (by omega)]
  rw [if_neg (by simp [hne2, List.all_eq_true]; exact hall)]
  rw [if_neg (by simp [hne2])]

/-- C7 (confirmed): hostname-stem sanitization (the validator
`AddRequest.sanitize_hostname_prefix`, `server.py` lines 197-226) is
idempotent: whenever it accepts a stem `v` and outputs `w`, running it on
`w` again accepts and returns `w` itself. -/
theorem c7_sanitize_idempotent {v w : String} (h : sanitizeStem v = .ok w) :
    sanitizeStem w = .ok w := by
  obtain ⟨hall, hlen, hne, hnd, hhead, hlast⟩ := sanitizeStem_ok_canon h
  exact sanitizeStem_canon_fix hall hlen hne hnd hhead hlast

/-- Witness for C7 on the spec's example: sanitizing "--Light--House--"
yields "Light-House", and by `c7_sanitize_idempotent` the latter is a fixed
point. -/
theorem c7_sanitize_idempotent_witness :
    sanitizeStem "--Light--House--" = .ok "Light-House" ∧
      sanitizeStem "Light-House" = .ok "Light-House" :=
  ⟨by rfl, @c7_sanitize_idempotent "--Light--House--" "Light-House" (by rfl)⟩

/-! ## IP addresses, networks, printing and parsing

Models the parts of Python's `ipaddress` module that the server uses.
An address is a pair of a version (4 or 6) and its integer value; a
network (`ipaddress.ip_network` of the configured CIDR, which the startup
validator has already normalized to a strict network) is a version, a
network address and an address count.  Database columns store addresses
as strings, exactly as the server does, so printing (`str(address)`) and
parsing (`ipaddress.ip_address(text)`) are both modelled.  Scope-id
suffixes of IPv6 addresses (`"%zone"`) are not modelled. -/

/-- An IP network: `version` is 4 or 6, `networkAddress` the integer value
of the network address, `numAddresses` the block size (a power of two). -/
structure IPNet where
  version : Nat
  networkAddress : Nat
  numAddresses : Nat
deriving DecidableEq

/-- Decimal rendering of a natural number. -/
def natToDec (n : Nat) : String := ⟨Nat.toDigits 10 n⟩

/-- Lowercase hexadecimal rendering of a natural number. -/
def natToHex (n : Nat) : String := ⟨Nat.toDigits 16 n⟩

/-- `str(IPv4Address(v))`: dotted quad. -/
def ipv4ToString (v : Nat) : String :=
  natToDec (v / 16777216 % 256) ++ "." ++ natToDec (v / 65536 % 256) ++ "." ++
    natToDec (v / 256 % 256) ++ "." ++ natToDec (v % 256)

/-- The eight 16-bit groups of an IPv6 value, most significant first. -/
def ipv6Hextets (v : Nat) : List Nat :=
  [v / 2 ^ 112 % 65536, v / 2 ^ 96 % 65536, v / 2 ^ 80 % 65536, v / 2 ^ 64 % 65536,
   v / 2 ^ 48 % 65536, v / 2 ^ 32 % 65536, v / 2 ^ 16 % 65536, v % 65536]

/-- Finds the leftmost longest run of zeros in a hextet list (start and
length), scanning as `ipaddress._compress_hextets` does. -/
def zeroRunAux : List Nat → Nat → Nat → Nat → Nat → Nat → Nat × Nat
  | [], _, curStart, curLen, bestStart, bestLen =>
    if curLen > bestLen then (curStart, curLen) else (bestStart, bestLen)
  | h :: t, idx, curStart, curLen, bestStart, bestLen =>
    if h = 0 then
      zeroRunAux t (idx + 1) (if curLen = 0 then idx else curStart) (curLen + 1)
        bestStart bestLen
    else if curLen > bestLen then zeroRunAux t (idx + 1) 0 0 curStart curLen
    else zeroRunAux t (idx + 1) 0 0 bestStart bestLen

/-- Joins strings with `":"` separators. -/
def joinColon : List String → String
  | [] => ""
  | [x] => x
  | x :: xs => x ++ ":" ++ joinColon xs

/-- `str(IPv6Address(v))`: canonical compressed form (runs of at least two
zero groups become `::`, leftmost longest run wins). -/
def ipv6ToString (v : Nat) : String :=
  let hx := ipv6Hextets v
  let best := zeroRunAux hx 0 0 0 0 0
  if best.2 ≥ 2 then
    joinColon ((hx.take best.1).map natToHex) ++ "::" ++
      joinColon ((hx.drop (best.1 + best.2)).map natToHex)
  else joinColon (hx.map natToHex)

/-- `str(address)` for a version/value pair. -/
def ipToString (version v : Nat) : String :=
  if version = 4 then ipv4ToString v else ipv6ToString v

/-- Value of a list of decimal digit characters. -/
def decVal (l : List Char) : Nat :=
  l.foldl (fun a c => a * 10 + (c.toNat - 48)) 0

/-- One octet of a dotted quad, with Python's rules: 1-3 decimal digits,
no leading zero (except "0" itself), value at most 255. -/
def parseDecOctet (l : List Char) : Option Nat :=
  if l.isEmpty then none
  else if !(l.all Char.isDigit) then none
  else if l.length > 3 then none
  else if l.length > 1 && l.head? == some '0' then none
  else if decVal l ≤ 255 then some (decVal l) else none

/-- `IPv4Address(text)`: exactly four octets separated by dots. -/
def parseIPv4 (s : String) : Option Nat :=
  match splitChar '.' s.data with
  | [a, b, c, d] => do
    let x ← parseDecOctet a
    let y ← parseDecOctet b
    let z ← parseDecOctet c
    let w ← parseDecOctet d
    pure (x * 16777216 + y * 65536 + z * 256 + w)
  | _ => none

/-- Hexadecimal digit test (both cases), as `string.hexdigits`. -/
def isHexDigitChar (c : Char) : Bool :=
  c.isDigit || ('a' ≤ c && c ≤ 'f') || ('A' ≤ c && c ≤ 'F')

/-- Value of a hexadecimal digit character. -/
def hexDigitVal (c : Char) : Nat :=
  if c.isDigit then c.toNat - 48
  else if 'a' ≤ c && c ≤ 'f' then c.toNat - 87
  else c.toNat - 55

/-- One IPv6 group: 1-4 hex digits (leading zeros allowed). -/
def parseHextet (l : List Char) : Option Nat :=
  if l.isEmpty then none
  else if !(l.all isHexDigitChar) then none
  else if l.length > 4 then none
  else some (l.foldl (fun a c => a * 16 + hexDigitVal c) 0)

/-- Parses a group list where only the final group may be an embedded
dotted quad (which expands to two hextets). -/
def parseGroupsV4Tail : List (List Char) → Option (List Nat)
  | [] => some []
  | [g] =>
    if g.contains '.' then
      (parseIPv4 ⟨g⟩).map fun n => [n / 65536, n % 65536]
    else (parseHextet g).map fun n => [n]
  | g :: gs => do
    let n ← parseHextet g
    let r ← parseGroupsV4Tail gs
    pure (n :: r)

/-- Parses a group list of plain hextets only. -/
def parseGroupsPlain : List (List Char) → Option (List Nat)
  | [] => some []
  | g :: gs => do
    let n ← parseHextet g
    let r ← parseGroupsPlain gs
    pure (n :: r)

/-- Splits a character list at the first `"::"`, if any. -/
def splitDC : List Char → Option (List Char × List Char)
  | [] => none
  | ':' :: ':' :: rest => some ([], rest)
  | c :: rest => (splitDC rest).map fun p => (c :: p.1, p.2)

/-- Assembles a 128-bit value from 8 hextets, most significant first. -/
def hextetsToNat (l : List Nat) : Nat :=
  l.foldl (fun a h => a * 65536 + h) 0

/-- `IPv6Address(text)` (without scope-id support): groups separated by
single colons, at most one `"::"` run, an optional trailing dotted quad. -/
def parseIPv6 (s : String) : Option Nat :=
  let cs := s.data
  match splitDC cs with
  | none =>
    match parseGroupsV4Tail (splitChar ':' cs) with
    | some gs => if gs.length = 8 then some (hextetsToNat gs) else none
    | none => none
  | some (l, r) =>
    if (splitDC r).isSome then none
    else
      let lg := if l.isEmpty then [] else splitChar ':' l
      let rg := if r.isEmpty then [] else splitChar ':' r
      match parseGroupsPlain lg, parseGroupsV4Tail rg with
      | some hi, some lo =>
        if hi.length + lo.length ≤ 7 then
          some (hextetsToNat (hi ++ List.replicate (8 - hi.length - lo.length) 0 ++ lo))
        else none
      | _, _ => none

/-- `ipaddress.ip_address(text)`: tries IPv4 first, then IPv6; returns the
version together with the value. -/
def parseIP (s : String) : Option (Nat × Nat) :=
  match parseIPv4 s with
  | some v => some (4, v)
  | none => (parseIPv6 s).map fun v => (6, v)

example : parseIP "10.0.0.5" = some (4, 167772165) := by rfl
example : parseIP "10.0.0.256" = none := by rfl
example : parseIP "10.0.00.5" = none := by rfl
example : parseIP "::1" = some (6, 1) := by rfl
example : parseIP "1:2:3:4:5:6:7:8" = some (6, 0x10002000300040005000600070008) := by rfl
example : parseIP "::ffff:1.2.3.4" = some (6, 0xffff01020304) := by rfl
example : parseIP "1::2::3" = none := by rfl
example : parseIP "nonsense" = none := by rfl
example : ipToString 4 167772165 = "10.0.0.5" := by rfl
example : ipToString 6 1 = "::1" := by rfl
example : ipv6ToString 0 = "::" := by rfl
example : ipv6ToString 0x20010db8000000000000000000000001 = "2001:db8::1" := by rfl

/-! ## Pool membership and validation (`validate_ip_in_subnet`, lines 305-323) -/

/-- Membership of an address in a network, as Python's `ip in net`
(`False` on version mismatch; otherwise a range test against the block). -/
def inNet (version v : Nat) (net : IPNet) : Bool :=
  version == net.version && net.networkAddress ≤ v &&
    v < net.networkAddress + net.numAddresses

/-- The broadcast address of a network (its highest address). -/
def IPNet.broadcast (net : IPNet) : Nat :=
  net.networkAddress + net.numAddresses - 1

/-- Models `validate_ip_in_subnet(ip_str, subnet_cidr)`: parse the string
(`ValueError` on failure), then reject out-of-subnet addresses, the network
address, and - for IPv4 only - the broadcast address. -/
def validate_ip_in_subnet (ipStr : String) (net : IPNet) : Except String Unit :=
  match parseIP ipStr with
  | none => .error "does not appear to be an IPv4 or IPv6 address"
  | some (version, v) =>
    if !(inNet version v net) then
      .error "is not in subnet"
    else if v == net.networkAddress then
      .error "is the network address and cannot be assigned"
    else if net.version == 4 && v == net.broadcast then
      .error "is the broadcast address and cannot be assigned"
    else .ok ()

/-! ## IP allocation (`allocate_ip`, lines 385-444)

The `secrets.randbelow` draws are supplied by an `AllocRand` oracle:
`startOffset` is the single draw of the small-network branch, `probes i`
the `i`-th draw of the large-network branch.  The occupied set is the
list of `ip` column values read from the `hosts` table. -/

structure AllocRand where
  startOffset : Nat
  probes : Nat → Nat

/-- The candidate string `str(net.network_address + offset)`. -/
def candidateAt (net : IPNet) (offset : Nat) : String :=
  ipToString net.version (net.networkAddress + offset)

/-- The small-network scan: `num_hosts` candidates starting at a random
offset, wrapping modulo `num_hosts`, offsets shifted into `1 ..= num_hosts`. -/
def scanSmall (net : IPNet) (allocated : List String) (start numHosts : Nat) :
    Option String :=
  (List.range numHosts).findSome? fun i =>
    if allocated.contains (candidateAt net ((start + i) % numHosts + 1)) then none
    else some (candidateAt net ((start + i) % numHosts + 1))

/-- The large-network branch: up to 100 independent random probes, each
checked against the occupied set.  The `% numHosts` truncation encodes the
codomain of `secrets.randbelow(num_hosts)`: each real draw is below
`numHosts` and is represented by itself, and no oracle produces an offset
the real code could not produce. -/
def probeLarge (net : IPNet) (allocated : List String) (probes : Nat → Nat)
    (numHosts : Nat) : Option String :=
  (List.range 100).findSome? fun attempt =>
    if allocated.contains (candidateAt net (probes attempt % numHosts + 1)) then none
    else some (candidateAt net (probes attempt % numHosts + 1))

/-- Models `allocate_ip`: fails when the pool has no usable address, scans
exhaustively below 100000 usable addresses, probes randomly at or above. -/
def allocate_ip (net : IPNet) (allocated : List String) (rnd : AllocRand) :
    Except String String :=
  if net.numAddresses - 2 < 1 then
    .error "network has no usable addresses"
  else if net.numAddresses - 2 < 100000 then
    match scanSmall net allocated rnd.startOffset (net.numAddresses - 2) with
    | some c => .ok c
    | none => .error "no available IPs (all addresses allocated)"
  else
    match probeLarge net allocated rnd.probes (net.numAddresses - 2) with
    | some c => .ok c
    | none => .error "could not allocate IP after 100 attempts"

/-! ## Hostname generation (`generate_hostname`, lines 447-459)

The random `secrets.token_hex` draws are supplied by the oracle function
`suffixes : Nat → String`; the code keeps only the first `suffixLen`
characters of each draw (`[:suffix_len]`). -/

def generate_hostname_go (suffixLen : Nat) (view : List String) (base : String)
    (suffixes : Nat → String) : Nat → Nat → Except String String
  | _, 0 => .error "could not generate unique hostname after 20 attempts"
  | i, fuel + 1 =>
    let hn := base ++ "-" ++ (⟨(suffixes i).data.take suffixLen⟩ : String)
    if view.contains hn then generate_hostname_go suffixLen view base suffixes (i + 1) fuel
    else .ok hn

/-- Models `generate_hostname(conn, prefix)` where `view` is the list of
`hostname` column values the per-attempt occupancy queries see. -/
def generate_hostname (suffixLen : Nat) (view : List String) (stem : String)
    (suffixes : Nat → String) : Except String String :=
  generate_hostname_go suffixLen view (rstripHyphens stem) suffixes 0 20

/-! ## Data model: rows, requests, configuration, environment

`Host` and `ApiKey` model rows of the `hosts` and `api_keys` tables
(`init_db`, lines 117-148); `groups` carries the decoded `groups_json`
column (JSON round-trips of string lists are faithful).  `AddRequest`
models the request body after pydantic field validation; the source field
`hostname_prefix` is called `hostnameStem` here.  `Config` carries the
startup environment CIDR (`CONFIG.subnet_cidr`) and the runtime-config
cache seeded by `init_db` (`_RUNTIME_CONFIG`: cidr, default expiry days,
suffix length, cached CA certificate). -/

structure Host where
  hostname : String
  ip : String
  groups : List String
  expiry : Nat
  apiKeyId : Nat
  currentCert : String
  createdAt : Nat
  updatedAt : Nat
deriving DecidableEq

structure ApiKey where
  id : Nat
  keyHash : String
  expiration : Option Int
  usesRemaining : Option Int
  groups : List String
  createdAt : Nat
  updatedAt : Nat
deriving DecidableEq

structure DB where
  hosts : List Host
  apiKeys : List ApiKey
deriving DecidableEq

structure AddRequest where
  apiKey : String
  hostnameStem : Option String
  publicKey : String
  suggestedIp : Option String
deriving DecidableEq

/-- What happened when the server shelled out to `nebula-cert sign`
(`run_nebula_sign`, lines 326-382): a `plumbum.ProcessExecutionError`, a
missing or present output file, or some other exception. -/
inductive SignerOutcome
  | procFailure (msg stderr : String)
  | missingOutput
  | otherFailure (msg : String)
  | output (content : String)
deriving DecidableEq

/-- The oracle environment of one onboarding call: what the per-attempt
`SELECT`s see (`hostsView t` for retry attempt `t`), the random draws of
`allocate_ip` and `generate_hostname`, and the signer outcome of each
attempt.  Theorems quantify over all environments; sequential (isolated)
execution is the special case `hostsView t = db.hosts`. -/
structure Env where
  hostsView : Nat → List Host
  rand : Nat → AllocRand
  suffixes : Nat → Nat → String
  signer : Nat → SignerOutcome

/-- The failure classes `add_host` can surface, one constructor per raise
site (`fastapi.HTTPException` or propagated `RuntimeError`). -/
inductive ApiError
  | invalidKey
  | keyExpired
  | noUsesRemaining
  | noGroups
  | invalidSuggestedIp (msg : String)
  | signerFailure (msg : String)
  | insertFailed (attempts : Nat)
  | retryLoopExhausted
  | runtimeError (msg : String)
  | caNotCached
  | groupsRequired
  | keyCreationFailed
deriving DecidableEq

/-- The HTTP status each failure class is surfaced with. -/
def ApiError.status : ApiError → Nat
  | .invalidKey => 403
  | .keyExpired => 403
  | .noUsesRemaining => 403
  | .noGroups => 500
  | .invalidSuggestedIp _ => 422
  | .signerFailure _ => 500
  | .insertFailed _ => 500
  | .retryLoopExhausted => 500
  | .runtimeError _ => 500
  | .caNotCached => 500
  | .groupsRequired => 400
  | .keyCreationFailed => 500

structure CertBundle where
  caCert : String
  hostCert : String
  ip : String
  hostname : String
  expiry : Nat
deriving DecidableEq

structure Config where
  subnetCidr : IPNet
  runtimeCidr : IPNet
  defaultExpiryDays : Nat
  randomSuffixLength : Nat
  caCertContent : Option String
deriving DecidableEq

/-- Models `hash_key` (`hashlib.sha256(key.encode()).hexdigest()`).  The
development relies only on lookup consistency of the digest, so the
cryptographic function is replaced by an injective hex encoding of the
key's characters. -/
def hash_key (key : String) : String :=
  String.join (key.data.map fun c => natToHex c.toNat ++ ".")

/-! ## The signer wrapper (`run_nebula_sign` + the except-arms of
`add_host`, lines 547-606) -/

def certHeaderV2 : String := "-----BEGIN NEBULA CERTIFICATE V2-----"

/-- The best-effort user-facing classification of a
`plumbum.ProcessExecutionError` (lines 560-582). -/
def classifySignerFailure (msg stderr : String) : String :=
  let errorMsg := lowerStr msg
  let stderrLower := lowerStr stderr
  if containsSub "no such file" errorMsg || containsSub "command not found" errorMsg then
    "nebula-cert binary not found or not executable"
  else if containsSub "permission denied" errorMsg || containsSub "access denied" errorMsg then
    "permission denied accessing CA files or working directory"
  else if containsSub "invalid" stderrLower && containsSub "certificate" stderrLower then
    "CA certificate or key file is invalid or corrupted"
  else if containsSub "invalid" stderrLower && containsSub "ip" stderrLower then
    "invalid IP address format"
  else if containsSub "invalid" stderrLower && containsSub "groups" stderrLower then
    "invalid groups format"
  else "certificate generation failed"

/-- Signer invocation: missing output, an empty certificate file, and a
certificate without the recognizable header are all failures, never a
partial success. -/
def runNebulaSign : SignerOutcome → Except ApiError String
  | .procFailure msg stderr => .error (.signerFailure (classifySignerFailure msg stderr))
  | .missingOutput =>
    .error (.signerFailure "nebula-cert completed but output certificate file missing")
  | .otherFailure msg => .error (.signerFailure msg)
  | .output content =>
    if content.data.isEmpty then
      .error (.signerFailure "nebula-cert created empty certificate file")
    else if !(containsSub certHeaderV2 content) then
      .error (.signerFailure "generated certificate is not a valid Nebula certificate")
    else .ok content

/-! ## One onboarding attempt and the retry loop (`add_host`, lines 466-690) -/

def ipsOf (hosts : List Host) : List String := hosts.map Host.ip

def hostnamesOf (hosts : List Host) : List String := hosts.map Host.hostname

/-- Automatic allocation inside `add_host`: `allocate_ip` against the
runtime-config CIDR, over the `ip` column as read at attempt `t`;
a `RuntimeError` propagates out of the endpoint. -/
def autoAllocate (cfg : Config) (env : Env) (t : Nat) : Except ApiError String :=
  match allocate_ip cfg.runtimeCidr (ipsOf (env.hostsView t)) (env.rand t) with
  | .ok c => .ok c
  | .error m => .error (.runtimeError m)

/-- The IP-selection block of one attempt (lines 501-536): an absent (or,
after Python truthiness, empty) suggestion auto-allocates; an invalid
suggestion raises HTTP 422; a valid but occupied suggestion falls back to
auto-allocation; a valid free suggestion is used as-is.  The suggestion is
validated against the startup CIDR (`CONFIG.subnet_cidr`). -/
def chooseIp (cfg : Config) (env : Env) (req : AddRequest) (t : Nat) :
    Except ApiError String :=
  match req.suggestedIp with
  | some s =>
    if s.data.isEmpty then autoAllocate cfg env t
    else
      match validate_ip_in_subnet s cfg.subnetCidr with
      | .error msg => .error (.invalidSuggestedIp msg)
      | .ok _ =>
        if (ipsOf (env.hostsView t)).contains s then autoAllocate cfg env t
        else .ok s
  | none => autoAllocate cfg env t

/-- Python's `request.hostname_prefix or "node-"`. -/
def pyStemOr : Option String → String
  | some s => if s.data.isEmpty then "node-" else s
  | none => "node-"

/-- Outcome of one `{allocate → sign → insert}` attempt: a fatal error
that aborts the call, an IntegrityError from the insert, or success. -/
inductive AttemptOutcome
  | fatal (e : ApiError)
  | collision (msg ip hostname : String)
  | success (ip hostname cert : String)
deriving DecidableEq

/-- Lowercased SQLite message for a hostname-uniqueness violation. -/
def hostnameMsg : String := "unique constraint failed: hosts.hostname"

/-- Lowercased SQLite message for an ip-uniqueness violation. -/
def ipMsg : String := "unique constraint failed: hosts.ip"

/-- The storage-level UNIQUE constraints checked by the INSERT (line 609):
the `hostname` constraint is declared before `ip` in the schema, so a row
violating both reports the hostname message. -/
def insertCheck (hosts : List Host) (hn ip : String) : Option String :=
  if (hostnamesOf hosts).contains hn then some hostnameMsg
  else if (ipsOf hosts).contains ip then some ipMsg
  else none

/-- One attempt of the retry loop, with the insert checked against the
committed rows `db.hosts` (the storage constraint is the ground truth;
the reads of the attempt see `env.hostsView t`). -/
def attemptCore (cfg : Config) (env : Env) (req : AddRequest) (db : DB) (t : Nat) :
    AttemptOutcome :=
  match chooseIp cfg env req t with
  | .error e => .fatal e
  | .ok ip =>
    match generate_hostname cfg.randomSuffixLength (hostnamesOf (env.hostsView t))
        (pyStemOr req.hostnameStem) (env.suffixes t) with
    | .error m => .fatal (.runtimeError m)
    | .ok hn =>
      match runNebulaSign (env.signer t) with
      | .error e => .fatal e
      | .ok cert =>
        match insertCheck db.hosts hn ip with
        | some msg => .collision msg ip hn
        | none => .success ip hn cert

def maxRetries : Nat := 10

/-- The retry condition of the IntegrityError handler (lines 630-648):
retry exactly when attempts remain and the lowercased message contains
"ip" or "hostname". -/
def retryDispatch (t : Nat) (msg : String) : Bool :=
  decide (t < maxRetries - 1) && (containsSub "ip" msg || containsSub "hostname" msg)

/-- The bounded retry loop around `{allocate → sign → insert}`; the second
component counts the attempts performed. -/
def attemptLoop (cfg : Config) (env : Env) (req : AddRequest) (db : DB) :
    Nat → Nat → Except ApiError (String × String × String) × Nat
  | t, 0 => (.error .retryLoopExhausted, t)
  | t, fuel + 1 =>
    match attemptCore cfg env req db t with
    | .fatal e => (.error e, t + 1)
    | .success ip hn cert => (.ok (ip, hn, cert), t + 1)
    | .collision msg _ _ =>
      if retryDispatch t msg then attemptLoop cfg env req db (t + 1) fuel
      else (.error (.insertFailed (t + 1)), t + 1)

/-- Python truthiness check `if exp and exp < now` (an expiration equal to
the integer 0 is falsy and skips the expiry test). -/
def pyExpired (exp : Option Int) (now : Nat) : Bool :=
  match exp with
  | none => false
  | some e => e != 0 && e < (now : Int)

/-- The metering check `if uses is not None and uses <= 0`. -/
def pyExhausted : Option Int → Bool
  | none => false
  | some u => u ≤ 0

/-- `UPDATE api_keys SET uses_remaining = ? WHERE id = ?`. -/
def decrementUses (keys : List ApiKey) (apiId : Nat) (newUses : Int) : List ApiKey :=
  keys.map fun k => if k.id = apiId then { k with usesRemaining := some newUses } else k

/-- `SELECT ... FROM api_keys WHERE key_hash = ?`. -/
def findApiKey (keys : List ApiKey) (keyHash : String) : Option ApiKey :=
  keys.find? fun k => k.keyHash == keyHash

/-- The host row the INSERT of a successful attempt writes (line 609). -/
def mkRow (key : ApiKey) (now expiry : Nat) (hn ip cert : String) : Host :=
  { hostname := hn, ip := ip, groups := key.groups, expiry := expiry,
    apiKeyId := key.id, currentCert := cert, createdAt := now, updatedAt := now }

/-- What the transaction commits on success: the new host row, plus the
uses decrement when the key meters uses (lines 608-672). -/
def commitRow (db : DB) (key : ApiKey) (row : Host) : DB :=
  let db1 : DB := { db with hosts := db.hosts ++ [row] }
  match key.usesRemaining with
  | none => db1
  | some u => { db1 with apiKeys := decrementUses db1.apiKeys key.id (u - 1) }

/-- The admission block of `add_host` (lines 470-489): key lookup by
digest, then the expiry, remaining-uses and groups checks, in that order. -/
def admitKey (db : DB) (keyHash : String) (now : Nat) : Except ApiError ApiKey :=
  match findApiKey db.apiKeys keyHash with
  | none => .error .invalidKey
  | some key =>
    if pyExpired key.expiration now then .error .keyExpired
    else if pyExhausted key.usesRemaining then .error .noUsesRemaining
    else if key.groups.isEmpty then .error .noGroups
    else .ok key

/-- The public `/add` endpoint (`add_host`, lines 466-690).  Returns the
response and the database after the call: the transaction of `get_db`
commits the insert and the uses decrement together on success and rolls
everything back when the handler raises; the cached-CA check happens after
the transaction has committed, so that error leaves the commit in place. -/
def add_host (cfg : Config) (env : Env) (req : AddRequest) (now : Nat) (db : DB) :
    Except ApiError CertBundle × DB :=
  match admitKey db (hash_key req.apiKey) now with
  | .error e => (.error e, db)
  | .ok key =>
    match attemptLoop cfg env req db 0 maxRetries with
    | (.error e, _) => (.error e, db)
    | (.ok (ip, hn, cert), _) =>
      let expiry := now + cfg.defaultExpiryDays * 86400
      let db2 := commitRow db key (mkRow key now expiry hn ip cert)
      match cfg.caCertContent with
      | none => (.error .caNotCached, db2)
      | some ca =>
        (.ok { caCert := ca, hostCert := cert, ip := ip, hostname := hn,
               expiry := expiry }, db2)

/-! ## The admin key-creation endpoint (`create_api_key`, lines 705-737) -/

/-- AUTOINCREMENT row id for a new key. -/
def freshKeyId (keys : List ApiKey) : Nat :=
  (keys.map ApiKey.id).foldr max 0 + 1

/-- Models `POST /keys` after master-key verification: rejects an empty
group list; the UNIQUE `key_hash` constraint turns a duplicate digest into
a creation failure; otherwise inserts the new key row. -/
def create_api_key (newKey : String) (groups : List String) (expiryUnix : Option Int)
    (uses : Option Int) (now : Nat) (db : DB) : Except ApiError String × DB :=
  if groups.isEmpty then (.error .groupsRequired, db)
  else if db.apiKeys.any (fun k => k.keyHash == hash_key newKey) then
    (.error .keyCreationFailed, db)
  else
    (.ok newKey,
      { db with apiKeys := db.apiKeys ++
          [{ id := freshKeyId db.apiKeys, keyHash := hash_key newKey,
             expiration := expiryUnix, usesRemaining := uses,
             groups := groups, createdAt := now, updatedAt := now }] })

/-- The states reachable from the empty database (`init_db`) by any
sequence of administrative key creations and onboarding calls, each
onboarding under an arbitrary oracle environment. -/
inductive Reachable (cfg : Config) : DB → Prop
  | init : Reachable cfg { hosts := [], apiKeys := [] }
  | createKey (db : DB) (newKey : String) (groups : List String)
      (expiryUnix : Option Int) (uses : Option Int) (now : Nat) :
      Reachable cfg db →
      Reachable cfg (create_api_key newKey groups expiryUnix uses now db).2
  | onboard (db : DB) (env : Env) (req : AddRequest) (now : Nat) :
      Reachable cfg db →
      Reachable cfg (add_host cfg env req now db).2

/-! ## Concrete fixtures used by witnesses and counterexamples -/

/-- A `10.0.0.0/29` pool (8 addresses, 6 usable). -/
def net29 : IPNet := { version := 4, networkAddress := 167772160, numAddresses := 8 }

def cfg29 : Config :=
  { subnetCidr := net29, runtimeCidr := net29, defaultExpiryDays := 365,
    randomSuffixLength := 6, caCertContent := some "CA-PEM" }

def key1 : ApiKey :=
  { id := 1, keyHash := hash_key "k1", expiration := none,
    usesRemaining := some 1, groups := ["default"], createdAt := 0, updatedAt := 0 }

def db1 : DB := { hosts := [], apiKeys := [key1] }

def certOk : String := "-----BEGIN NEBULA CERTIFICATE V2-----demo"

/-- A deterministic sequential environment: reads see `hosts`, randomness
all zero, hostname suffix draws `sfx`, signer succeeds. -/
def envSeq (hosts : List Host) (sfx : Nat → Nat → String) : Env :=
  { hostsView := fun _ => hosts,
    rand := fun _ => { startOffset := 0, probes := fun _ => 0 },
    suffixes := sfx,
    signer := fun _ => .output certOk }

def env1 : Env := envSeq db1.hosts fun _ _ => "a1b2c3"

def req1 : AddRequest :=
  { apiKey := "k1", hostnameStem := none, publicKey := "PK", suggestedIp := none }

example : (add_host cfg29 env1 req1 100 db1).1 =
    .ok { caCert := "CA-PEM", hostCert := certOk, ip := "10.0.0.1",
          hostname := "node-a1b2c3", expiry := 31536100 } := by rfl

example : (add_host cfg29 env1 req1 100 db1).2 =
    { hosts := [{ hostname := "node-a1b2c3", ip := "10.0.0.1", groups := ["default"],
                  expiry := 31536100, apiKeyId := 1, currentCert := certOk,
                  createdAt := 100, updatedAt := 100 }],
      apiKeys := [{ key1 with usesRemaining := some 0 }] } := by rfl

/-! ## Structural lemmas about one call -/

theorem contains_false_not_mem {l : List String} {a : String}
    (h : l.contains a = false) : a ∉ l := by
  intro hm
  have h2 : l.contains a = true := by
    rw [List.contains_iff_exists_mem_beq]
    exact ⟨a, hm, by simp⟩
  exact Bool.noConfusion (h2.symm.trans h)

theorem contains_true_of_mem {l : List String} {a : String}
    (h : a ∈ l) : l.contains a = true := by
  rw [List.contains_iff_exists_mem_beq]
  exact ⟨a, h, by simp⟩

/-- A certificate returned by the signer wrapper contains the recognizable
header and is non-empty. -/
theorem runNebulaSign_ok {o : SignerOutcome} {cert : String}
    (h : runNebulaSign o = .ok cert) :
    containsSub certHeaderV2 cert = true ∧ cert ≠ "" := by
  unfold runNebulaSign at h
  split at h
  · cases h
  · cases h
  · cases h
  · split at h
    · cases h
    · split at h
      · cases h
      · rename_i hne hcont
        injection h with h
        subst h
        refine ⟨?_, ?_⟩
        · by_contra hcb
          rw [Bool.not_eq_true] at hcb
          exact hcont (by rw [hcb]; rfl)
        · intro hc
          apply hne
          rw [hc]
          rfl

/-- A successful storage check means the row collides with nothing. -/
theorem insertCheck_none {hosts : List Host} {hn ip : String}
    (h : insertCheck hosts hn ip = none) :
    ∀ r ∈ hosts, r.hostname ≠ hn ∧ r.ip ≠ ip := by
  unfold insertCheck at h
  split at h
  · cases h
  · split at h
    · cases h
    · rename_i hhn hip
      rw [Bool.not_eq_true] at hhn hip
      intro r hr
      constructor
      · intro he
        exact contains_false_not_mem hhn (he ▸ List.mem_map_of_mem Host.hostname hr)
      · intro he
        exact contains_false_not_mem hip (he ▸ List.mem_map_of_mem Host.ip hr)

/-- What a successful attempt establishes: the chosen pair passed the
storage check and the certificate came out of the signer wrapper. -/
theorem attemptCore_success {cfg : Config} {env : Env} {req : AddRequest} {db : DB}
    {t : Nat} {ip hn cert : String}
    (h : attemptCore cfg env req db t = .success ip hn cert) :
    chooseIp cfg env req t = .ok ip ∧
      generate_hostname cfg.randomSuffixLength (hostnamesOf (env.hostsView t))
        (pyStemOr req.hostnameStem) (env.suffixes t) = .ok hn ∧
      runNebulaSign (env.signer t) = .ok cert ∧
      insertCheck db.hosts hn ip = none := by
  unfold attemptCore at h
  split at h
  · cases h
  · rename_i ip0 hip
    split at h
    · cases h
    · rename_i hn0 hhn
      split at h
      · cases h
      · rename_i cert0 hcert
        split at h
        · cases h
        · rename_i hins
          cases h
          exact ⟨hip, hhn, hcert, hins⟩

/-- What a collision attempt establishes: the message identifies which
column collided, and that column value is present among committed rows. -/
theorem attemptCore_collision {cfg : Config} {env : Env} {req : AddRequest} {db : DB}
    {t : Nat} {msg ip hn : String}
    (h : attemptCore cfg env req db t = .collision msg ip hn) :
    (msg = hostnameMsg ∧ hn ∈ hostnamesOf db.hosts) ∨
      (msg = ipMsg ∧ ip ∈ ipsOf db.hosts) := by
  unfold attemptCore at h
  split at h
  · cases h
  · rename_i ip0 hip
    split at h
    · cases h
    · rename_i hn0 hhn
      split at h
      · cases h
      · rename_i cert0 hcert
        split at h
        · rename_i msg0 hins
          cases h
          unfold insertCheck at hins
          split at hins
          · rename_i hc
            injection hins with hins
            left
            refine ⟨hins.symm, ?_⟩
            have := hc
            rw [List.contains_iff_exists_mem_beq] at this
            obtain ⟨x, hx, hbeq⟩ := this
            rw [beq_iff_eq] at hbeq
            exact hbeq ▸ hx
          · split at hins
            · rename_i hc
              injection hins with hins
              right
              refine ⟨hins.symm, ?_⟩
              rw [List.contains_iff_exists_mem_beq] at hc
              obtain ⟨x, hx, hbeq⟩ := hc
              rw [beq_iff_eq] at hbeq
              exact hbeq ▸ hx
            · cases hins
        · cases h

/-- Every successful run of the retry loop comes from a successful attempt. -/
theorem attemptLoop_ok {cfg : Config} {env : Env} {req : AddRequest} {db : DB} :
    ∀ (fuel t : Nat) {ip hn cert : String} {n : Nat},
      attemptLoop cfg env req db t fuel = (.ok (ip, hn, cert), n) →
      ∃ u, attemptCore cfg env req db u = .success ip hn cert := by
  intro fuel
  induction fuel with
  | zero =>
    intro t ip hn cert n h
    simp [attemptLoop] at h
  | succ fuel ih =>
    intro t ip hn cert n h
    unfold attemptLoop at h
    split at h
    · simp at h
    · rename_i ip0 hn0 cert0 hcore
      rw [Prod.mk.injEq] at h
      obtain ⟨h1, -⟩ := h
      injection h1 with h1
      rw [Prod.mk.injEq] at h1
      obtain ⟨rfl, h1⟩ := h1
      rw [Prod.mk.injEq] at h1
      obtain ⟨rfl, rfl⟩ := h1
      exact ⟨t, hcore⟩
    · rename_i msg ipx hnx hcore
      split at h
      · exact ih _ h
      · simp at h

/-- Facts established by a successful admission. -/
theorem admitKey_ok {db : DB} {keyHash : String} {now : Nat} {key : ApiKey}
    (h : admitKey db keyHash now = .ok key) :
    findApiKey db.apiKeys keyHash = some key ∧
      pyExpired key.expiration now = false ∧
      pyExhausted key.usesRemaining = false ∧ key.groups.isEmpty = false := by
  unfold admitKey at h
  split at h
  · cases h
  · rename_i key0 hf
    split at h
    · cases h
    · split at h
      · cases h
      · split at h
        · cases h
        · rename_i h1 h2 h3
          cases h
          exact ⟨hf, by rwa [Bool.not_eq_true] at h1, by rwa [Bool.not_eq_true] at h2,
            by rwa [Bool.not_eq_true] at h3⟩

/-- Call-level shape of `add_host`: either the call fails and rolls the
transaction back (database unchanged), or the key admits, some attempt
succeeds, and the database afterwards is exactly the committed row plus
the uses decrement; the post-commit cached-CA check decides whether the
caller sees the bundle or a 500 with the commit already in place. -/
theorem add_host_shape (cfg : Config) (env : Env) (req : AddRequest) (now : Nat)
    (db : DB) :
    (∃ e, add_host cfg env req now db = (.error e, db)) ∨
    (∃ key t ip hn cert,
      findApiKey db.apiKeys (hash_key req.apiKey) = some key ∧
      pyExhausted key.usesRemaining = false ∧
      attemptCore cfg env req db t = .success ip hn cert ∧
      (add_host cfg env req now db).2 =
        commitRow db key (mkRow key now (now + cfg.defaultExpiryDays * 86400) hn ip cert) ∧
      ((cfg.caCertContent = none ∧
          (add_host cfg env req now db).1 = .error .caNotCached) ∨
        (∃ ca, cfg.caCertContent = some ca ∧
          (add_host cfg env req now db).1 =
            .ok { caCert := ca, hostCert := cert, ip := ip, hostname := hn,
                  expiry := now + cfg.defaultExpiryDays * 86400 }))) := by
  unfold add_host
  split
  · rename_i e ha
    exact Or.inl ⟨e, rfl⟩
  · rename_i key ha
    obtain ⟨hfind, hexp, hexh, hgrp⟩ := admitKey_ok ha
    split
    · rename_i e n heq
      exact Or.inl ⟨e, rfl⟩
    · rename_i ip hn cert n heq
      obtain ⟨t, hcore⟩ := attemptLoop_ok _ _ heq
      right
      refine ⟨key, t, ip, hn, cert, hfind, hexh, hcore, ?_, ?_⟩
      · cases cfg.caCertContent <;> rfl
      · cases hca : cfg.caCertContent with
        | none => exact Or.inl ⟨rfl, by rfl⟩
        | some ca => exact Or.inr ⟨ca, rfl, by rfl⟩

theorem create_api_key_hosts (newKey : String) (groups : List String)
    (expiryUnix : Option Int) (uses : Option Int) (now : Nat) (db : DB) :
    (create_api_key newKey groups expiryUnix uses now db).2.hosts = db.hosts := by
  unfold create_api_key
  split
  · rfl
  · split
    · rfl
    · rfl

theorem commitRow_hosts (db : DB) (key : ApiKey) (row : Host) :
    (commitRow db key row).hosts = db.hosts ++ [row] := by
  unfold commitRow
  cases key.usesRemaining <;> rfl

theorem commitRow_apiKeys (db : DB) (key : ApiKey) (row : Host) :
    (commitRow db key row).apiKeys =
      match key.usesRemaining with
      | none => db.apiKeys
      | some u => decrementUses db.apiKeys key.id (u - 1) := by
  unfold commitRow
  cases key.usesRemaining <;> rfl

/-- The C1 invariant: committed Host rows are pairwise distinct in both
`hostname` and `ip`, and every committed certificate is non-empty. -/
def HostInvariant (db : DB) : Prop :=
  db.hosts.Pairwise (fun a b => a.hostname ≠ b.hostname ∧ a.ip ≠ b.ip) ∧
  ∀ h ∈ db.hosts, h.currentCert ≠ ""

/-- C1 (confirmed): in every state reachable by any sequence of onboarding
calls and administrative key creations - under arbitrary read/randomness/
signer oracles - no two committed Host rows share an `ip`, no two share a
`hostname`, and every committed row carries a non-empty certificate.  The
storage-level UNIQUE check at insert time and the signer wrapper's header
check are what preserve the invariant. -/
theorem c1_host_invariant {cfg : Config} {db : DB} (h : Reachable cfg db) :
    HostInvariant db := by
  induction h with
  | init => exact ⟨List.Pairwise.nil, by intro h hm; cases hm⟩
  | createKey db newKey groups expiryUnix uses now hr ih =>
    unfold HostInvariant
    rw [create_api_key_hosts]
    exact ih
  | onboard db env req now hr ih =>
    rcases add_host_shape cfg env req now db with ⟨e, heq⟩ |
      ⟨key, t, ip, hn, cert, hfind, hexh, hcore, hdb, -⟩
    · rw [heq]
      exact ih
    · obtain ⟨hall, hcert⟩ := ih
      obtain ⟨hc1, hc2, hsign, hins⟩ := attemptCore_success hcore
      obtain ⟨hhead, hne⟩ := runNebulaSign_ok hsign
      unfold HostInvariant
      rw [hdb, commitRow_hosts]
      constructor
      · rw [List.pairwise_append]
        refine ⟨hall, List.pairwise_singleton _ _, ?_⟩
        intro a ha b hb
        rw [List.mem_singleton] at hb
        subst hb
        exact insertCheck_none hins a ha
      · intro r hm
        rw [List.mem_append] at hm
        rcases hm with hm | hm
        · exact hcert _ hm
        · rw [List.mem_singleton] at hm
          subst hm
          exact hne

/-- Witness for C1: a concrete reachable state (create a key, onboard a
host) satisfies the invariant via `c1_host_invariant`. -/
theorem c1_host_invariant_witness :
    HostInvariant (add_host cfg29 env1 req1 100 db1).2 :=
  c1_host_invariant
    (Reachable.onboard db1 env1 req1 100
      (Reachable.createKey { hosts := [], apiKeys := [] } "k1" ["default"] none
        (some 1) 0 Reachable.init))

/-! ## C4: expiry enforcement and the zero-timestamp truthiness gap -/

def keyExp0 : ApiKey :=
  { id := 1, keyHash := hash_key "k0", expiration := some 0,
    usesRemaining := none, groups := ["g"], createdAt := 0, updatedAt := 0 }

def dbExp0 : DB := { hosts := [], apiKeys := [keyExp0] }

def reqExp0 : AddRequest :=
  { apiKey := "k0", hostnameStem := none, publicKey := "PK", suggestedIp := none }

def envC4 : Env := envSeq [] fun _ _ => "cafe01"

/-- Counterexample to C4 as stated: a key whose expiration timestamp is
SET (to the epoch instant 0) and strictly in the past at `now = 100` is
not rejected - the call succeeds and commits a Host row, because the
admission check `if exp and exp < now` treats the integer 0 as falsy and
skips the comparison. -/
theorem c4_counterexample :
    keyExp0.expiration = some 0 ∧ (0 : Int) < (100 : Nat) ∧
      (add_host cfg29 envC4 reqExp0 100 dbExp0).1 ≠ .error .keyExpired ∧
      (add_host cfg29 envC4 reqExp0 100 dbExp0).2.hosts.length = 1 := by
  refine ⟨rfl, by decide, ?_, by rfl⟩
  have h : (add_host cfg29 envC4 reqExp0 100 dbExp0).1 =
      .ok { caCert := "CA-PEM", hostCert := certOk, ip := "10.0.0.1",
            hostname := "node-cafe01", expiry := 31536100 } := by rfl
  rw [h]
  intro hc
  exact Except.noConfusion hc

/-- C4 (amended, proved): for every onboarding call whose API key has an
expiration timestamp that is set to a nonzero value and strictly less than
the current time, admission fails with the expired-key error regardless of
the key's remaining uses, and the database is unchanged (no Host row). -/
theorem c4_expired_rejected (cfg : Config) (env : Env) (req : AddRequest)
    (now : Nat) (db : DB) (key : ApiKey) (e : Int)
    (hfind : findApiKey db.apiKeys (hash_key req.apiKey) = some key)
    (hexp : key.expiration = some e) (hne : e ≠ 0) (hlt : e < (now : Int)) :
    add_host cfg env req now db = (.error .keyExpired, db) := by
  have hPE : pyExpired key.expiration now = true := by
    rw [hexp]
    simp [pyExpired, bne_iff_ne, hne, hlt]
  simp only [add_host, admitKey, hfind, hPE, if_true]

def keyExp50 : ApiKey :=
  { id := 1, keyHash := hash_key "k2", expiration := some 50,
    usesRemaining := some 7, groups := ["g"], createdAt := 0, updatedAt := 0 }

def dbExp50 : DB := { hosts := [], apiKeys := [keyExp50] }

def reqExp50 : AddRequest :=
  { apiKey := "k2", hostnameStem := none, publicKey := "PK", suggestedIp := none }

/-- Witness for the amended C4: a key that expired at 50 is rejected at
`now = 100` with the expired-key error even though it has uses left. -/
theorem c4_expired_rejected_witness :
    add_host cfg29 envC4 reqExp50 100 dbExp50 = (.error .keyExpired, dbExp50) :=
  c4_expired_rejected cfg29 envC4 reqExp50 100 dbExp50 keyExp50 50 (by rfl) rfl
    (by decide) (by decide)

/-! ## C3: the uses decrement is coupled to success -/

theorem findApiKey_decrement (keys : List ApiKey) (h : String) (i : Nat) (v : Int) :
    findApiKey (decrementUses keys i v) h =
      (findApiKey keys h).map fun k =>
        if k.id = i then { k with usesRemaining := some v } else k := by
  unfold findApiKey decrementUses
  have hp : ((fun k => k.keyHash == h) ∘ fun k : ApiKey =>
      if k.id = i then { k with usesRemaining := some v } else k) =
      fun k : ApiKey => k.keyHash == h := by
    funext k
    by_cases hk : k.id = i <;> simp [Function.comp, hk]
  rw [List.find?_map, hp]

theorem commitRow_some {key : ApiKey} {u : Int} (db : DB) (row : Host)
    (hu : key.usesRemaining = some u) :
    commitRow db key row =
      { hosts := db.hosts ++ [row],
        apiKeys := decrementUses db.apiKeys key.id (u - 1) } := by
  unfold commitRow
  rw [hu]

/-- C3 (confirmed): for a call whose key meters uses (uses_remaining is
non-null), the counter is decremented by exactly one if and only if the
call succeeds, the decrement and the Host insert commit in the same
transaction (the post-call database is exactly the pre-call one plus the
row and the decrement), and any failed call leaves the database - in
particular uses_remaining - unchanged.  The hypothesis that the CA
certificate is cached always holds at request time because `init_db`
caches it before the server starts serving (lines 178-185). -/
theorem c3_uses_decrement_iff (cfg : Config) (env : Env) (req : AddRequest)
    (now : Nat) (db : DB) (key : ApiKey) (u : Int) (ca : String)
    (hca : cfg.caCertContent = some ca)
    (hfind : findApiKey db.apiKeys (hash_key req.apiKey) = some key)
    (hu : key.usesRemaining = some u) :
    ((∃ b, (add_host cfg env req now db).1 = .ok b) ↔
      findApiKey (add_host cfg env req now db).2.apiKeys (hash_key req.apiKey) =
        some { key with usesRemaining := some (u - 1) }) ∧
    ((∃ b, (add_host cfg env req now db).1 = .ok b) →
      ∃ row, (add_host cfg env req now db).2 =
        { hosts := db.hosts ++ [row],
          apiKeys := decrementUses db.apiKeys key.id (u - 1) }) ∧
    (∀ e, (add_host cfg env req now db).1 = .error e →
      (add_host cfg env req now db).2 = db) := by
  rcases add_host_shape cfg env req now db with ⟨e, heq⟩ |
    ⟨key2, t, ip, hn, cert, hfind2, hexh, hcore, hdb, hres⟩
  · refine ⟨?_, ?_, ?_⟩
    · constructor
      · rintro ⟨b, hb⟩
        rw [heq] at hb
        exact Except.noConfusion hb
      · intro hkeys
        rw [heq] at hkeys
        rw [hfind] at hkeys
        injection hkeys with hkeys
        have := congrArg ApiKey.usesRemaining hkeys
        rw [hu] at this
        injection this with this
        omega
    · rintro ⟨b, hb⟩
      rw [heq] at hb
      exact absurd hb (by simp)
    · intro e2 he2
      rw [heq]
  · rw [hfind] at hfind2
    injection hfind2 with hkk
    subst hkk
    rcases hres with ⟨hnone, -⟩ | ⟨ca2, hca2, hok⟩
    · rw [hnone] at hca
      exact Option.noConfusion hca
    · have hkeys : (add_host cfg env req now db).2.apiKeys =
          decrementUses db.apiKeys key.id (u - 1) := by
        rw [hdb, commitRow_some _ _ hu]
      refine ⟨?_, ?_, ?_⟩
      · constructor
        · intro _
          rw [hkeys, findApiKey_decrement, hfind]
          simp
        · intro _
          exact ⟨_, hok⟩
      · intro _
        exact ⟨mkRow key now (now + cfg.defaultExpiryDays * 86400) hn ip cert,
          by rw [hdb, commitRow_some _ _ hu]⟩
      · intro e2 he2
        rw [hok] at he2
        exact Except.noConfusion he2

/-- Witness for C3: with the one-use key `key1`, the successful concrete
call decrements the stored counter from 1 to 0. -/
theorem c3_uses_decrement_iff_witness :
    findApiKey (add_host cfg29 env1 req1 100 db1).2.apiKeys (hash_key "k1") =
      some { key1 with usesRemaining := some 0 } :=
  (c3_uses_decrement_iff cfg29 env1 req1 100 db1 key1 1 "CA-PEM" rfl (by rfl)
    rfl).1.mp ⟨_, by rfl⟩

/-! ## C2: key metering over sequential calls -/

def isOkB : Except ApiError CertBundle → Bool
  | .ok _ => true
  | .error _ => false

/-- Runs a list of onboarding calls sequentially, each against the
database the previous call left behind. -/
def runCalls (cfg : Config) : List (Env × AddRequest × Nat) → DB →
    List (Except ApiError CertBundle) × DB
  | [], db => ([], db)
  | (env, req, now) :: rest, db =>
    let r := add_host cfg env req now db
    let rr := runCalls cfg rest r.2
    (r.1 :: rr.1, rr.2)

def countOk (rs : List (Except ApiError CertBundle)) : Nat :=
  (rs.filter isOkB).length

theorem countOk_cons (x : Except ApiError CertBundle)
    (l : List (Except ApiError CertBundle)) :
    countOk (x :: l) = (if isOkB x then 1 else 0) + countOk l := by
  unfold countOk
  rw [List.filter_cons]
  split <;> simp [Nat.add_comm]

/-- One call either fails without touching the key table, or consumes
exactly one remaining use (which requires a positive counter); the latter
also covers the post-commit cached-CA failure. -/
theorem add_host_meter_step (cfg : Config) (env : Env) (req : AddRequest)
    (now : Nat) (db : DB) (key : ApiKey) (u : Int)
    (hfind : findApiKey db.apiKeys (hash_key req.apiKey) = some key)
    (hu : key.usesRemaining = some u) :
    ((∀ b, (add_host cfg env req now db).1 ≠ .ok b) ∧
      (add_host cfg env req now db).2.apiKeys = db.apiKeys) ∨
    (0 < u ∧
      (add_host cfg env req now db).2.apiKeys =
        decrementUses db.apiKeys key.id (u - 1)) := by
  rcases add_host_shape cfg env req now db with ⟨e, heq⟩ |
    ⟨key2, t, ip, hn, cert, hfind2, hexh, hcore, hdb, hres⟩
  · left
    constructor
    · intro b hb
      rw [heq] at hb
      exact Except.noConfusion hb
    · rw [heq]
  · rw [hfind] at hfind2
    injection hfind2 with hkk
    subst hkk
    right
    constructor
    · rw [hu] at hexh
      simp [pyExhausted] at hexh
      omega
    · rw [hdb, commitRow_some _ _ hu]

/-- The metering invariant: running any sequence of calls that all use key
`K` leaves the counter at `k - d` for some `d ≤ k`, having produced at
most `d - d0` successes. -/
theorem runCalls_meter (cfg : Config) (K : String) (k : Nat) (key0 : ApiKey) :
    ∀ (calls : List (Env × AddRequest × Nat)) (db : DB) (d0 : Nat),
      (∀ c ∈ calls, c.2.1.apiKey = K) →
      d0 ≤ k →
      findApiKey db.apiKeys (hash_key K) =
        some { key0 with usesRemaining := some ((k : Int) - d0) } →
      ∃ d : Nat, d0 ≤ d ∧ d ≤ k ∧
        findApiKey (runCalls cfg calls db).2.apiKeys (hash_key K) =
          some { key0 with usesRemaining := some ((k : Int) - d) } ∧
        countOk (runCalls cfg calls db).1 + d0 ≤ d := by
  intro calls
  induction calls with
  | nil =>
    intro db d0 hc hd hfind
    exact ⟨d0, le_refl _, hd, hfind, by simp [runCalls, countOk]⟩
  | cons c rest ih =>
    intro db d0 hc hd hfind
    obtain ⟨env, req, now⟩ := c
    have hK : req.apiKey = K := hc _ (List.mem_cons_self _ _)
    have hrest : ∀ c2 ∈ rest, c2.2.1.apiKey = K :=
      fun c2 hc2 => hc _ (List.mem_cons_of_mem _ hc2)
    rcases add_host_meter_step cfg env req now db _ _
        (by rw [hK]; exact hfind) rfl with ⟨hfail, hkeys⟩ | ⟨hpos, hkeys⟩
    · obtain ⟨d, hd0d, hdk, hfindF, hcount⟩ :=
        ih (add_host cfg env req now db).2 d0 hrest hd (by rw [hkeys]; exact hfind)
      refine ⟨d, hd0d, hdk, hfindF, ?_⟩
      have hok0 : isOkB (add_host cfg env req now db).1 = false := by
        cases hr : (add_host cfg env req now db).1 with
        | ok b => exact absurd hr (hfail b)
        | error e => rfl
      show countOk ((add_host cfg env req now db).1 ::
        (runCalls cfg rest (add_host cfg env req now db).2).1) + d0 ≤ d
      rw [countOk_cons, hok0]
      simpa using hcount
    · have hd0k : d0 < k := by omega
      have hcast : (k : Int) - d0 - 1 = (k : Int) - (d0 + 1 : Nat) := by
        push_cast
        ring
      have hfind2 : findApiKey (add_host cfg env req now db).2.apiKeys (hash_key K) =
          some { key0 with usesRemaining := some ((k : Int) - (d0 + 1 : Nat)) } := by
        rw [hkeys, findApiKey_decrement, hfind]
        simp [hcast]
      obtain ⟨d, hd0d, hdk, hfindF, hcount⟩ :=
        ih (add_host cfg env req now db).2 (d0 + 1) hrest hd0k hfind2
      refine ⟨d, by omega, hdk, hfindF, ?_⟩
      show countOk ((add_host cfg env req now db).1 ::
        (runCalls cfg rest (add_host cfg env req now db).2).1) + d0 ≤ d
      rw [countOk_cons]
      split <;> omega

/-- C2 (confirmed): a key created with `uses_remaining = k` permits at most
`k` successful onboardings over any sequence of sequential calls using that
key, and once `k` successes have occurred the next call with that key (at
any time at which the key is not expired) is rejected with the exhaustion
error and the database - in particular the Host table - is unchanged. -/
theorem c2_key_metering (cfg : Config) (db : DB) (K : String) (k : Nat)
    (key0 : ApiKey) (calls : List (Env × AddRequest × Nat))
    (hfind : findApiKey db.apiKeys (hash_key K) = some key0)
    (hu : key0.usesRemaining = some (k : Int))
    (hcalls : ∀ c ∈ calls, c.2.1.apiKey = K) :
    countOk (runCalls cfg calls db).1 ≤ k ∧
    (countOk (runCalls cfg calls db).1 = k →
      ∀ (env2 : Env) (req2 : AddRequest) (now2 : Nat), req2.apiKey = K →
        pyExpired key0.expiration now2 = false →
        add_host cfg env2 req2 now2 (runCalls cfg calls db).2 =
          (.error .noUsesRemaining, (runCalls cfg calls db).2)) := by
  have h0 : findApiKey db.apiKeys (hash_key K) =
      some { key0 with usesRemaining := some ((k : Int) - (0 : Nat)) } := by
    rw [hfind]
    cases key0 with
    | mk id kh exp us gr ca ua =>
      simp only [ApiKey.usesRemaining] at hu
      subst hu
      simp
  obtain ⟨d, -, hdk, hfindF, hcount⟩ :=
    runCalls_meter cfg K k key0 calls db 0 hcalls (Nat.zero_le _) h0
  constructor
  · omega
  · intro hck env2 req2 now2 hK2 hexp2
    have hdke : d = k := by omega
    rw [hdke] at hfindF
    have hzero : (k : Int) - (k : Nat) = 0 := by
      simp
    rw [hzero] at hfindF
    have hexp3 : pyExpired ({ key0 with usesRemaining := some 0 } : ApiKey).expiration
        now2 = false := hexp2
    have hAdm : admitKey (runCalls cfg calls db).2 (hash_key req2.apiKey) now2 =
        .error .noUsesRemaining := by
      unfold admitKey
      rw [hK2, hfindF]
      simp [hexp3, pyExhausted]
    unfold add_host
    rw [hAdm]

def calls1 : List (Env × AddRequest × Nat) := [(env1, req1, 100)]

/-- Witness for C2 (the spec's Scenario D): with `uses_remaining = 1`, one
successful call exhausts the key and the next call is rejected with the
exhaustion error, leaving the database unchanged. -/
theorem c2_key_metering_witness :
    countOk (runCalls cfg29 calls1 db1).1 ≤ 1 ∧
      add_host cfg29 env1 req1 300 (runCalls cfg29 calls1 db1).2 =
        (.error .noUsesRemaining, (runCalls cfg29 calls1 db1).2) := by
  have h := c2_key_metering cfg29 db1 "k1" 1 key1 calls1 (by rfl) rfl
    (by intro c hc; simp only [calls1, List.mem_singleton] at hc; subst hc; rfl)
  exact ⟨h.1, h.2 (by rfl) env1 req1 300 rfl (by rfl)⟩

/-! ## C5: suggested-IP validation and fallback -/

/-- What an accepted suggestion satisfies: it parses, lies in the pool, and
is neither the network address nor (for IPv4) the broadcast address. -/
theorem validate_ok_facts {s : String} {net : IPNet}
    (h : validate_ip_in_subnet s net = .ok ()) :
    ∃ v a, parseIP s = some (v, a) ∧ inNet v a net = true ∧
      a ≠ net.networkAddress ∧ (net.version = 4 → a ≠ net.broadcast) := by
  unfold validate_ip_in_subnet at h
  split at h
  · cases h
  · rename_i p v a hp
    split at h
    · cases h
    · split at h
      · cases h
      · split at h
        · cases h
        · rename_i hin hna hbc
          refine ⟨v, a, hp, ?_, ?_, ?_⟩
          · simpa using hin
          · intro he
            exact hna (by rw [he]; simp)
          · intro h4 he
            exact hbc (by rw [h4, he]; simp)

theorem attemptLoop_fatal (cfg : Config) (env : Env) (req : AddRequest) (db : DB)
    (t : Nat) (e : ApiError) (fuel : Nat)
    (h : attemptCore cfg env req db t = .fatal e) :
    attemptLoop cfg env req db t (fuel + 1) = (.error e, t + 1) := by
  unfold attemptLoop
  rw [h]

/-- Attempt-wise equal behaviour gives loop-wise equal behaviour. -/
theorem attemptLoop_congr {cfg : Config} {env : Env} {req req2 : AddRequest}
    {db : DB} (h : ∀ t, attemptCore cfg env req db t = attemptCore cfg env req2 db t) :
    ∀ (fuel t : Nat), attemptLoop cfg env req db t fuel = attemptLoop cfg env req2 db t fuel := by
  intro fuel
  induction fuel with
  | zero => intro t; rfl
  | succ fuel ih =>
    intro t
    unfold attemptLoop
    rw [h t]
    cases attemptCore cfg env req2 db t with
    | fatal e => rfl
    | success ip hn cert => rfl
    | collision msg ip hn =>
      dsimp only
      by_cases hr : retryDispatch t msg = true
      · rw [if_pos hr, if_pos hr]
        exact ih (t + 1)
      · rw [if_neg hr, if_neg hr]

/-- C5 (confirmed): for an admitted onboarding call carrying a (non-empty)
suggested IP, (a) a suggestion that fails to parse, lies outside the
configured pool, or equals the pool's network address or (IPv4) broadcast
address makes the whole call fail with the invalid-suggestion error - an
HTTP 422 validation failure, a different failure class from the
exhaustion errors (which are 403/500) - leaving the database unchanged and
never falling back to automatic allocation; (b) a suggestion the validator
accepts but whose IP the occupancy reads see as taken makes the call
behave exactly like the same call with no suggestion at all (transparent
fallback to automatic allocation). -/
theorem c5_suggested_ip (cfg : Config) (env : Env) (req : AddRequest) (now : Nat)
    (db : DB) (s : String) (key : ApiKey)
    (hs : req.suggestedIp = some s) (hne : s.data ≠ [])
    (hadm : admitKey db (hash_key req.apiKey) now = .ok key) :
    ((parseIP s = none ∨
        (∀ v a, parseIP s = some (v, a) → inNet v a cfg.subnetCidr = false) ∨
        parseIP s = some (cfg.subnetCidr.version, cfg.subnetCidr.networkAddress) ∨
        (cfg.subnetCidr.version = 4 ∧
          parseIP s = some (4, cfg.subnetCidr.broadcast))) →
      ∃ msg, add_host cfg env req now db = (.error (.invalidSuggestedIp msg), db) ∧
        (ApiError.invalidSuggestedIp msg).status = 422) ∧
    (validate_ip_in_subnet s cfg.subnetCidr = .ok () →
      (∀ t, s ∈ ipsOf (env.hostsView t)) →
      add_host cfg env req now db =
        add_host cfg env { req with suggestedIp := none } now db) := by
  have hisE : s.data.isEmpty = false := by
    cases hd : s.data with
    | nil => exact absurd hd hne
    | cons a t => rfl
  constructor
  · intro hbad
    obtain ⟨msg, hval⟩ : ∃ msg, validate_ip_in_subnet s cfg.subnetCidr = .error msg := by
      cases hv : validate_ip_in_subnet s cfg.subnetCidr with
      | error m => exact ⟨m, rfl⟩
      | ok u =>
        cases u
        obtain ⟨v, a, hp, hin, hna, hbc⟩ := validate_ok_facts hv
        exfalso
        rcases hbad with h | h | h | ⟨h4, h⟩
        · rw [h] at hp; cases hp
        · rw [h v a hp] at hin; cases hin
        · rw [h] at hp
          injection hp with hp
          rw [Prod.mk.injEq] at hp
          exact hna hp.2.symm
        · rw [h] at hp
          injection hp with hp
          rw [Prod.mk.injEq] at hp
          exact hbc h4 hp.2.symm
    have hchoose : chooseIp cfg env req 0 = .error (.invalidSuggestedIp msg) := by
      unfold chooseIp
      rw [hs]
      simp [hisE, hval]
    have hcore : attemptCore cfg env req db 0 = .fatal (.invalidSuggestedIp msg) := by
      unfold attemptCore
      rw [hchoose]
    refine ⟨msg, ?_, rfl⟩
    unfold add_host
    rw [hadm]
    rw [show maxRetries = 9 + 1 from rfl, attemptLoop_fatal cfg env req db 0 _ 9 hcore]
  · intro hval hocc
    have hchoose : ∀ t, chooseIp cfg env req t = autoAllocate cfg env t := by
      intro t
      unfold chooseIp
      rw [hs]
      simp only [hisE, Bool.false_eq_true, if_false, hval]
      rw [contains_true_of_mem (hocc t), if_pos rfl]
    have hcores : ∀ t, attemptCore cfg env req db t =
        attemptCore cfg env { req with suggestedIp := none } db t := by
      intro t
      have hchoose2 : chooseIp cfg env { req with suggestedIp := none } t =
          autoAllocate cfg env t := rfl
      unfold attemptCore
      rw [hchoose t, hchoose2]
    unfold add_host
    rw [attemptLoop_congr hcores maxRetries 0]

def host503 : Host :=
  { hostname := "node-zzzzzz", ip := "10.0.0.3", groups := ["default"],
    expiry := 31536100, apiKeyId := 1, currentCert := certOk,
    createdAt := 1, updatedAt := 1 }

def db5 : DB := { hosts := [host503], apiKeys := [key1] }

def env5 : Env := envSeq db5.hosts fun _ _ => "a1b2c3"

def req5 : AddRequest :=
  { apiKey := "k1", hostnameStem := none, publicKey := "PK",
    suggestedIp := some "10.0.0.3" }

/-- Witness for C5: suggesting the already-occupied `10.0.0.3` makes the
call behave exactly like the suggestion-free call. -/
theorem c5_suggested_ip_witness :
    add_host cfg29 env5 req5 100 db5 =
      add_host cfg29 env5 { req5 with suggestedIp := none } 100 db5 :=
  (c5_suggested_ip cfg29 env5 req5 100 db5 "10.0.0.3" key1 rfl (by decide)
    (by rfl)).2 (by rfl) (fun t => List.mem_cons_self _ _)

/-! ## C6 and C10: allocation correctness -/

/-- The wrapped scan visits every offset in `1 ..= n`. -/
theorem scan_offset_surjective (start n o : Nat) (h1 : 1 ≤ o) (h2 : o ≤ n) :
    ∃ i, i < n ∧ (start + i) % n + 1 = o := by
  have hn : 0 < n := Nat.lt_of_lt_of_le h1 h2
  have ha : start % n < n := Nat.mod_lt _ hn
  have hd := Nat.div_add_mod start n
  refine ⟨(o - 1 + (n - start % n)) % n, Nat.mod_lt _ hn, ?_⟩
  have key : (start + (o - 1 + (n - start % n)) % n) % n = o - 1 := by
    conv_lhs => rw [Nat.add_mod]
    rw [Nat.mod_mod, ← Nat.add_mod]
    have he : start + (o - 1 + (n - start % n)) = o - 1 + n * (start / n + 1) := by
      have h2 : n * (start / n + 1) = n * (start / n) + n := by ring
      omega
    rw [he, Nat.add_comm (o - 1) (n * (start / n + 1)), Nat.mul_add_mod,
      Nat.mod_eq_of_lt (by omega)]
  omega

theorem scanSmall_mem {net : IPNet} {occ : List String} {start n : Nat} {c : String}
    (h : scanSmall net occ start n = some c) :
    ∃ o, 1 ≤ o ∧ o ≤ n ∧ c = candidateAt net o ∧
      occ.contains (candidateAt net o) = false := by
  unfold scanSmall at h
  obtain ⟨i, hi, hfi⟩ := List.exists_of_findSome?_eq_some h
  rw [List.mem_range] at hi
  have hn : 0 < n := Nat.lt_of_le_of_lt (Nat.zero_le i) hi
  split at hfi
  · cases hfi
  · rename_i hocc
    injection hfi with hfi
    have hb := Nat.mod_lt (start + i) hn
    refine ⟨(start + i) % n + 1, by omega, by omega, hfi.symm, ?_⟩
    rwa [Bool.not_eq_true] at hocc

theorem scanSmall_none {net : IPNet} {occ : List String} {start n : Nat}
    (h : scanSmall net occ start n = none) :
    ∀ o, 1 ≤ o → o ≤ n → occ.contains (candidateAt net o) = true := by
  unfold scanSmall at h
  rw [List.findSome?_eq_none_iff] at h
  intro o h1 h2
  obtain ⟨i, hi, hio⟩ := scan_offset_surjective start n o h1 h2
  have h3 := h i (List.mem_range.mpr hi)
  rw [hio] at h3
  by_contra hc
  rw [Bool.not_eq_true] at hc
  rw [hc] at h3
  simp at h3

theorem probeLarge_mem {net : IPNet} {occ : List String} {probes : Nat → Nat}
    {n : Nat} {c : String} (hn : 0 < n)
    (h : probeLarge net occ probes n = some c) :
    ∃ o, 1 ≤ o ∧ o ≤ n ∧ c = candidateAt net o := by
  unfold probeLarge at h
  obtain ⟨a, ha, hfa⟩ := List.exists_of_findSome?_eq_some h
  split at hfa
  · cases hfa
  · injection hfa with hfa
    have hb := Nat.mod_lt (probes a) hn
    exact ⟨probes a % n + 1, by omega, by omega, hfa.symm⟩

theorem allocate_ip_eq_small {net : IPNet} {occ : List String} {rnd : AllocRand}
    (h1 : ¬(net.numAddresses - 2 < 1)) (h2 : net.numAddresses - 2 < 100000) :
    allocate_ip net occ rnd =
      match scanSmall net occ rnd.startOffset (net.numAddresses - 2) with
      | some c => .ok c
      | none => .error "no available IPs (all addresses allocated)" := by
  unfold allocate_ip
  rw [if_neg h1, if_pos h2]

theorem allocate_ip_eq_large {net : IPNet} {occ : List String} {rnd : AllocRand}
    (h1 : ¬(net.numAddresses - 2 < 1)) (h2 : ¬(net.numAddresses - 2 < 100000)) :
    allocate_ip net occ rnd =
      match probeLarge net occ rnd.probes (net.numAddresses - 2) with
      | some c => .ok c
      | none => .error "could not allocate IP after 100 attempts" := by
  unfold allocate_ip
  rw [if_neg h1, if_neg h2]

/-- C6 (confirmed): for a pool with fewer than 100000 usable addresses,
automatic allocation scans the offsets `1 ..= num_addresses - 2` starting
at the random offset and wrapping modulo the usable count, so it returns a
free in-pool candidate (never the network address at offset 0, never the
broadcast address at offset `num_addresses - 1`) whenever any usable
offset is free, and it returns an exhaustion error exactly when every
usable offset is occupied. -/
theorem c6_allocate_small (net : IPNet) (occ : List String) (rnd : AllocRand)
    (hsmall : net.numAddresses - 2 < 100000) :
    ((∃ o, 1 ≤ o ∧ o ≤ net.numAddresses - 2 ∧
        occ.contains (candidateAt net o) = false) →
      ∃ o, 1 ≤ o ∧ o ≤ net.numAddresses - 2 ∧
        allocate_ip net occ rnd = .ok (candidateAt net o) ∧
        occ.contains (candidateAt net o) = false) ∧
    ((∃ msg, allocate_ip net occ rnd = .error msg) ↔
      ∀ o, 1 ≤ o → o ≤ net.numAddresses - 2 →
        occ.contains (candidateAt net o) = true) := by
  by_cases h1 : net.numAddresses - 2 < 1
  · have halloc : allocate_ip net occ rnd = .error "network has no usable addresses" := by
      unfold allocate_ip
      rw [if_pos h1]
    refine ⟨?_, ?_, ?_⟩
    · rintro ⟨o, ho1, ho2, -⟩
      omega
    · intro _ o ho1 ho2
      omega
    · intro _
      exact ⟨_, halloc⟩
  · cases hscan : scanSmall net occ rnd.startOffset (net.numAddresses - 2) with
    | some c =>
      have halloc : allocate_ip net occ rnd = .ok c := by
        rw [allocate_ip_eq_small h1 hsmall, hscan]
      obtain ⟨o, ho1, ho2, hco, hfree⟩ := scanSmall_mem hscan
      refine ⟨?_, ?_, ?_⟩
      · intro _
        exact ⟨o, ho1, ho2, by rw [halloc, hco], hfree⟩
      · rintro ⟨msg, hmsg⟩
        rw [halloc] at hmsg
        exact Except.noConfusion hmsg
      · intro hall
        have := hall o ho1 ho2
        rw [hfree] at this
        cases this
    | none =>
      have halloc : allocate_ip net occ rnd =
          .error "no available IPs (all addresses allocated)" := by
        rw [allocate_ip_eq_small h1 hsmall, hscan]
      have hall := scanSmall_none hscan
      refine ⟨?_, ?_, ?_⟩
      · rintro ⟨o, ho1, ho2, hfree⟩
        have := hall o ho1 ho2
        rw [hfree] at this
        cases this
      · intro _
        exact hall
      · intro _
        exact ⟨_, halloc⟩

def occ1 : List String := ["10.0.0.1"]

def rnd0 : AllocRand := { startOffset := 0, probes := fun _ => 0 }

/-- Witness for C6: on the `/29` pool with `10.0.0.1` occupied, allocation
from random start 0 returns a free usable candidate. -/
theorem c6_allocate_small_witness :
    ∃ o, 1 ≤ o ∧ o ≤ net29.numAddresses - 2 ∧
      allocate_ip net29 occ1 rnd0 = .ok (candidateAt net29 o) ∧
      occ1.contains (candidateAt net29 o) = false :=
  (c6_allocate_small net29 occ1 rnd0 (by decide)).1
    ⟨2, by decide, by decide, by decide⟩

/-- C10 (confirmed): automatic allocation - in both the scan branch and
the random-probe branch, for IPv6 pools as well as IPv4 - draws offsets
only from `1 ..= num_addresses - 2`, so the pool's highest address (offset
`num_addresses - 1`) is never auto-allocated; by contrast, the
suggested-IP validator accepts a suggestion equal to the highest address
of an IPv6 pool (IPv6 has no broadcast address) and rejects it only for
IPv4 pools. -/
theorem c10_alloc_offsets (net : IPNet) (occ : List String) (rnd : AllocRand)
    (c : String) (h : allocate_ip net occ rnd = .ok c) :
    (∃ o, 1 ≤ o ∧ o ≤ net.numAddresses - 2 ∧ c = candidateAt net o) ∧
    (net.version = 6 → 2 ≤ net.numAddresses →
      ∀ s, parseIP s = some (6, net.networkAddress + net.numAddresses - 1) →
        validate_ip_in_subnet s net = .ok ()) ∧
    (net.version = 4 → 2 ≤ net.numAddresses →
      ∀ s, parseIP s = some (4, net.networkAddress + net.numAddresses - 1) →
        ∃ msg, validate_ip_in_subnet s net = .error msg) := by
  refine ⟨?_, ?_, ?_⟩
  · by_cases h1 : net.numAddresses - 2 < 1
    · unfold allocate_ip at h
      rw [if_pos h1] at h
      cases h
    · by_cases h2 : net.numAddresses - 2 < 100000
      · rw [allocate_ip_eq_small h1 h2] at h
        split at h
        · rename_i c2 hscan
          injection h with h
          obtain ⟨o, ho1, ho2, hco, -⟩ := scanSmall_mem hscan
          exact ⟨o, ho1, ho2, h ▸ hco⟩
        · cases h
      · rw [allocate_ip_eq_large h1 h2] at h
        split at h
        · rename_i c2 hprobe
          injection h with h
          obtain ⟨o, ho1, ho2, hco⟩ := probeLarge_mem (by omega) hprobe
          exact ⟨o, ho1, ho2, h ▸ hco⟩
        · cases h
  · intro h6 hge s hp
    have hin : inNet 6 (net.networkAddress + net.numAddresses - 1) net = true := by
      unfold inNet
      rw [h6]
      simp only [beq_self_eq_true, Bool.true_and, Bool.and_eq_true, decide_eq_true_eq]
      omega
    have hna : ((net.networkAddress + net.numAddresses - 1) == net.networkAddress) =
        false := by
      simp only [beq_eq_false_iff_ne, ne_eq]
      omega
    have h64 : (net.version == 4) = false := by
      rw [h6]
      rfl
    simp only [validate_ip_in_subnet, hp, hin, hna, h64, Bool.not_true,
      Bool.false_eq_true, if_false, Bool.false_and]
  · intro h4 hge s hp
    have hin : inNet 4 (net.networkAddress + net.numAddresses - 1) net = true := by
      unfold inNet
      rw [h4]
      simp only [beq_self_eq_true, Bool.true_and, Bool.and_eq_true, decide_eq_true_eq]
      omega
    have hna : ((net.networkAddress + net.numAddresses - 1) == net.networkAddress) =
        false := by
      simp only [beq_eq_false_iff_ne, ne_eq]
      omega
    have h44 : (net.version == 4) = true := by
      rw [h4]
      rfl
    have hbc : ((net.networkAddress + net.numAddresses - 1) == net.broadcast) = true := by
      unfold IPNet.broadcast
      simp
    refine ⟨"is the broadcast address and cannot be assigned", ?_⟩
    simp only [validate_ip_in_subnet, hp, hin, hna, h44, hbc, Bool.not_true,
      Bool.false_eq_true, if_false, Bool.and_self, if_true]

/-- Witness for C10: the `/29` allocation result lies at a usable offset. -/
theorem c10_alloc_offsets_witness :
    ∃ o, 1 ≤ o ∧ o ≤ net29.numAddresses - 2 ∧
      "10.0.0.2" = candidateAt net29 o :=
  (c10_alloc_offsets net29 occ1 rnd0 "10.0.0.2" (by rfl)).1

/-! ## C8: the bounded retry loop -/

/-- Every IntegrityError the model's insert can raise carries a message the
retry dispatch recognizes ("ip" or "hostname" as a substring). -/
theorem attemptCore_collision_msg {cfg : Config} {env : Env} {req : AddRequest}
    {db : DB} {t : Nat} {msg ip hn : String}
    (h : attemptCore cfg env req db t = .collision msg ip hn) :
    (containsSub "ip" msg || containsSub "hostname" msg) = true := by
  rcases attemptCore_collision h with ⟨rfl, -⟩ | ⟨rfl, -⟩
  · decide
  · decide

/-- Loop bookkeeping: the attempt counter never exceeds the fuel, and every
attempt that was followed by another one ended in a collision the dispatch
chose to retry. -/
theorem attemptLoop_props (cfg : Config) (env : Env) (req : AddRequest) (db : DB) :
    ∀ (fuel t : Nat),
      (attemptLoop cfg env req db t fuel).2 ≤ t + fuel ∧
      (∀ u, u + 1 < (attemptLoop cfg env req db t fuel).2 → t ≤ u →
        ∃ msg ip hn, attemptCore cfg env req db u = .collision msg ip hn ∧
          retryDispatch u msg = true) := by
  intro fuel
  induction fuel with
  | zero =>
    intro t
    constructor
    · show t ≤ t + 0
      omega
    · intro u hu htu
      have hu2 : u + 1 < t := hu
      omega
  | succ fuel ih =>
    intro t
    unfold attemptLoop
    cases hcore : attemptCore cfg env req db t with
    | fatal e =>
      constructor
      · show t + 1 ≤ t + (fuel + 1)
        omega
      · intro u hu htu
        have hu2 : u + 1 < t + 1 := hu
        omega
    | success ip hn cert =>
      constructor
      · show t + 1 ≤ t + (fuel + 1)
        omega
      · intro u hu htu
        have hu2 : u + 1 < t + 1 := hu
        omega
    | collision msg ip hn =>
      dsimp only
      by_cases hr : retryDispatch t msg = true
      · rw [if_pos hr]
        obtain ⟨iha, ihb⟩ := ih (t + 1)
        constructor
        · omega
        · intro u hu htu
          by_cases hut : u = t
          · subst hut
            exact ⟨msg, ip, hn, hcore, hr⟩
          · exact ihb u hu (by omega)
      · rw [if_neg hr]
        constructor
        · show t + 1 ≤ t + (fuel + 1)
          omega
        · intro u hu htu
          have hu2 : u + 1 < t + 1 := hu
          omega

/-- If every attempt up to the bound collides, the loop fails with the
attempts-exhausted insertion error. -/
theorem attemptLoop_exhaust (cfg : Config) (env : Env) (req : AddRequest) (db : DB) :
    ∀ (fuel t : Nat), t + fuel = maxRetries → t < maxRetries →
      (∀ u, t ≤ u → u < maxRetries →
        ∃ msg ip hn, attemptCore cfg env req db u = .collision msg ip hn) →
      attemptLoop cfg env req db t fuel =
        (.error (.insertFailed maxRetries), maxRetries) := by
  intro fuel
  induction fuel with
  | zero =>
    intro t hsum hlt hall
    omega
  | succ fuel ih =>
    intro t hsum hlt hall
    obtain ⟨msg, ip, hn, hcore⟩ := hall t (le_refl t) hlt
    have hrec := attemptCore_collision_msg hcore
    unfold attemptLoop
    rw [hcore]
    dsimp only
    by_cases hr : retryDispatch t msg = true
    · rw [if_pos hr]
      unfold retryDispatch at hr
      rw [Bool.and_eq_true, decide_eq_true_eq] at hr
      exact ih (t + 1) (by omega) (by omega) (fun u hu1 hu2 => hall u (by omega) hu2)
    · rw [if_neg hr]
      have hm : maxRetries = 10 := rfl
      have ht : t + 1 = maxRetries := by
        by_cases h9 : t < maxRetries - 1
        · exact absurd (by unfold retryDispatch; rw [Bool.and_eq_true,
            decide_eq_true_eq]; exact ⟨h9, hrec⟩) hr
        · omega
      rw [ht]

/-- C8 (confirmed): the allocate-sign-insert sequence is attempted at most
10 times per call; an attempt is followed by another one only when its
insert failed with a uniqueness violation whose message is recognizable as
an ip or hostname collision and attempts remained (attempt index below
max_retries - 1); and when all 10 attempts collide, the whole request
fails with the insertion-failure error after exactly 10 attempts. -/
theorem c8_retry_bound (cfg : Config) (env : Env) (req : AddRequest) (db : DB) :
    (attemptLoop cfg env req db 0 maxRetries).2 ≤ maxRetries ∧
    (∀ u, u + 1 < (attemptLoop cfg env req db 0 maxRetries).2 →
      ∃ msg ip hn, attemptCore cfg env req db u = .collision msg ip hn ∧
        (containsSub "ip" msg || containsSub "hostname" msg) = true ∧
        u < maxRetries - 1) ∧
    ((∀ u, u < maxRetries →
        ∃ msg ip hn, attemptCore cfg env req db u = .collision msg ip hn) →
      attemptLoop cfg env req db 0 maxRetries =
        (.error (.insertFailed maxRetries), maxRetries)) := by
  obtain ⟨ha, hb⟩ := attemptLoop_props cfg env req db maxRetries 0
  refine ⟨by simpa using ha, ?_, ?_⟩
  · intro u hu
    obtain ⟨msg, ip, hn, hcore, hr⟩ := hb u hu (Nat.zero_le u)
    unfold retryDispatch at hr
    rw [Bool.and_eq_true, decide_eq_true_eq] at hr
    exact ⟨msg, ip, hn, hcore, hr.2, hr.1⟩
  · intro hall
    exact attemptLoop_exhaust cfg env req db maxRetries 0 rfl (by decide)
      (fun u _ hu2 => hall u hu2)

def hostStale : Host :=
  { hostname := "node-aaaaaa", ip := "10.0.0.6", groups := ["default"],
    expiry := 31536100, apiKeyId := 1, currentCert := certOk,
    createdAt := 1, updatedAt := 1 }

def db9 : DB := { hosts := [hostStale], apiKeys := [key1] }

/-- An environment whose attempt-0 reads are stale (they miss the row
committed concurrently), while later attempts see it. -/
def env9 : Env :=
  { hostsView := fun t => if t = 0 then [] else db9.hosts,
    rand := fun _ => rnd0,
    suffixes := fun t _ => if t = 0 then "aaaaaa" else "bbbbbb",
    signer := fun _ => .output certOk }

/-- Witness for C8: with a stale first read, attempt 0 collides on the
hostname, is retried, and the loop finishes after 2 attempts. -/
theorem c8_retry_bound_witness :
    ∃ msg ip hn, attemptCore cfg29 env9 req1 db9 0 = .collision msg ip hn ∧
      (containsSub "ip" msg || containsSub "hostname" msg) = true ∧
      0 < maxRetries - 1 :=
  (c8_retry_bound cfg29 env9 req1 db9).2.1 0 (by decide)

/-! ## C9: what a retry reuses and what it cannot reuse -/

theorem mem_of_contains_true {l : List String} {a : String}
    (h : l.contains a = true) : a ∈ l := by
  rw [List.contains_iff_exists_mem_beq] at h
  obtain ⟨x, hx, hbeq⟩ := h
  rw [beq_iff_eq] at hbeq
  exact hbeq ▸ hx

/-- What a collision attempt chose and how it failed. -/
theorem attemptCore_collision_parts {cfg : Config} {env : Env} {req : AddRequest}
    {db : DB} {t : Nat} {msg ip hn : String}
    (h : attemptCore cfg env req db t = .collision msg ip hn) :
    chooseIp cfg env req t = .ok ip ∧
      generate_hostname cfg.randomSuffixLength (hostnamesOf (env.hostsView t))
        (pyStemOr req.hostnameStem) (env.suffixes t) = .ok hn ∧
      insertCheck db.hosts hn ip = some msg := by
  unfold attemptCore at h
  split at h
  · cases h
  · rename_i ip0 hip
    split at h
    · cases h
    · rename_i hn0 hhn
      split at h
      · cases h
      · rename_i cert0 hcert
        split at h
        · rename_i msg0 hins
          cases h
          exact ⟨hip, hhn, hins⟩
        · cases h

theorem insertCheck_some {hosts : List Host} {hn ip msg : String}
    (h : insertCheck hosts hn ip = some msg) :
    hn ∈ hostnamesOf hosts ∨ ip ∈ ipsOf hosts := by
  unfold insertCheck at h
  split at h
  · rename_i hc
    exact Or.inl (mem_of_contains_true hc)
  · split at h
    · rename_i hc
      exact Or.inr (mem_of_contains_true hc)
    · cases h

/-- An allocation the allocator hands out is not among the occupied
strings it was given. -/
theorem allocate_ip_ok_fresh {net : IPNet} {occ : List String} {rnd : AllocRand}
    {c : String} (h : allocate_ip net occ rnd = .ok c) :
    occ.contains c = false := by
  unfold allocate_ip at h
  split at h
  · cases h
  · split at h
    · split at h
      · rename_i c2 hscan
        injection h with h
        obtain ⟨o, -, -, hco, hfree⟩ := scanSmall_mem hscan
        rw [← h, hco, hfree]
      · cases h
    · rename_i hbig
      split at h
      · rename_i c2 hprobe
        injection h with h
        unfold probeLarge at hprobe
        obtain ⟨a, -, hfa⟩ := List.exists_of_findSome?_eq_some hprobe
        split at hfa
        · cases hfa
        · rename_i hocc
          injection hfa with hfa
          rw [← h, ← hfa]
          rw [Bool.not_eq_true] at hocc
          exact hocc
      · cases h

/-- The ip the attempt chose is free in the attempt's own reads. -/
theorem chooseIp_ok_fresh {cfg : Config} {env : Env} {req : AddRequest}
    {t : Nat} {ip : String} (h : chooseIp cfg env req t = .ok ip) :
    (ipsOf (env.hostsView t)).contains ip = false := by
  have hauto : ∀ ip2, autoAllocate cfg env t = .ok ip2 →
      (ipsOf (env.hostsView t)).contains ip2 = false := by
    intro ip2 h2
    unfold autoAllocate at h2
    split at h2
    · rename_i c2 halloc
      injection h2 with h2
      rw [← h2]
      exact allocate_ip_ok_fresh halloc
    · cases h2
  unfold chooseIp at h
  split at h
  · rename_i s hs
    split at h
    · exact hauto _ h
    · split at h
      · cases h
      · split at h
        · exact hauto _ h
        · rename_i hocc
          injection h with h
          rw [Bool.not_eq_true] at hocc
          rw [← h]
          exact hocc
  · exact hauto _ h

/-- The hostname the attempt generated is free in the attempt's own reads. -/
theorem generate_hostname_ok_fresh {suffixLen : Nat} {view : List String}
    {stem : String} {sfx : Nat → String} {hn : String}
    (h : generate_hostname suffixLen view stem sfx = .ok hn) :
    view.contains hn = false := by
  unfold generate_hostname at h
  generalize 0 = i0 at h
  generalize hf : 20 = fuel at h
  clear hf
  induction fuel generalizing i0 with
  | zero => cases h
  | succ fuel ih =>
    have h2 : (if view.contains (rstripHyphens stem ++ "-" ++
          (⟨(sfx i0).data.take suffixLen⟩ : String)) = true
        then generate_hostname_go suffixLen view (rstripHyphens stem) sfx
          (i0 + 1) fuel
        else Except.ok (rstripHyphens stem ++ "-" ++
          (⟨(sfx i0).data.take suffixLen⟩ : String))) = Except.ok hn := h
    split at h2
    · exact ih _ h2
    · rename_i hocc
      injection h2 with h2
      rw [Bool.not_eq_true] at hocc
      rw [← h2]
      exact hocc

def dbC9 : DB := { hosts := [hostStale], apiKeys := [key1] }

def envC9 : Env :=
  { hostsView := fun t => if t = 0 then [] else dbC9.hosts,
    rand := fun _ => rnd0,
    suffixes := fun t _ => if t = 0 then "aaaaaa" else "bbbbbb",
    signer := fun _ => .output certOk }

def reqC9 : AddRequest :=
  { apiKey := "k1", hostnameStem := none, publicKey := "PK",
    suggestedIp := some "10.0.0.5" }

/-- Counterexample to C9 as stated: attempt 0 chooses the free suggested
IP `10.0.0.5` and the generated hostname `node-aaaaaa`, and fails with a
hostname-uniqueness violation (a concurrently committed row already uses
that hostname); attempt 1 allocates afresh - and chooses the SAME IP
`10.0.0.5` again (the suggestion is still free), which the call finally
commits.  So the IP of a failed attempt IS reused on a later attempt of
the same call; only the value that caused the violation cannot recur. -/
theorem c9_counterexample :
    attemptCore cfg29 envC9 reqC9 dbC9 0 =
      .collision hostnameMsg "10.0.0.5" "node-aaaaaa" ∧
    attemptCore cfg29 envC9 reqC9 dbC9 1 =
      .success "10.0.0.5" "node-bbbbbb" certOk ∧
    (add_host cfg29 envC9 reqC9 100 dbC9).1 =
      .ok { caCert := "CA-PEM", hostCert := certOk, ip := "10.0.0.5",
            hostname := "node-bbbbbb", expiry := 31536100 } :=
  ⟨by rfl, by rfl, by rfl⟩

/-- C9 (amended, proved): after an attempt fails with a uniqueness
violation, its allocated values are discarded and allocation and signing
run afresh on the next attempt; the violation came from a value that is
already committed (the colliding hostname or ip is in the Host table), and
once the committed rows are visible to the later attempts' reads, no later
attempt can collide with previously committed rows - in particular the
value that caused the violation is never chosen again - and a later
successful attempt commits values fresh with respect to the committed
rows.  (The non-violating value of the failed attempt may be re-chosen,
as `c9_counterexample` shows.) -/
theorem c9_fresh_alloc (cfg : Config) (env : Env) (req : AddRequest) (db : DB)
    (t : Nat) (msg cip chn : String)
    (hcol : attemptCore cfg env req db t = .collision msg cip chn)
    (hmono : ∀ u, t < u → ∀ h ∈ db.hosts, h ∈ env.hostsView u) :
    ((msg = hostnameMsg ∧ chn ∈ hostnamesOf db.hosts) ∨
      (msg = ipMsg ∧ cip ∈ ipsOf db.hosts)) ∧
    (∀ u, t < u → ∀ msg2 ip2 hn2,
      attemptCore cfg env req db u ≠ .collision msg2 ip2 hn2) ∧
    (∀ u, t < u → ∀ ip2 hn2 cert2,
      attemptCore cfg env req db u = .success ip2 hn2 cert2 →
      ip2 ∉ ipsOf db.hosts ∧ hn2 ∉ hostnamesOf db.hosts) := by
  refine ⟨attemptCore_collision hcol, ?_, ?_⟩
  · intro u htu msg2 ip2 hn2 hcol2
    obtain ⟨hip, hhn, hins⟩ := attemptCore_collision_parts hcol2
    have hipf := chooseIp_ok_fresh hip
    have hhnf := generate_hostname_ok_fresh hhn
    rcases insertCheck_some hins with hmem | hmem
    · obtain ⟨r, hr, hre⟩ := List.mem_map.mp hmem
      have : hn2 ∈ hostnamesOf (env.hostsView u) :=
        hre ▸ List.mem_map_of_mem Host.hostname (hmono u htu r hr)
      rw [contains_true_of_mem this] at hhnf
      cases hhnf
    · obtain ⟨r, hr, hre⟩ := List.mem_map.mp hmem
      have : ip2 ∈ ipsOf (env.hostsView u) :=
        hre ▸ List.mem_map_of_mem Host.ip (hmono u htu r hr)
      rw [contains_true_of_mem this] at hipf
      cases hipf
  · intro u htu ip2 hn2 cert2 hsucc
    obtain ⟨-, -, -, hins⟩ := attemptCore_success hsucc
    have hfree := insertCheck_none hins
    constructor
    · intro hmem
      obtain ⟨r, hr, hre⟩ := List.mem_map.mp hmem
      exact (hfree r hr).2 hre
    · intro hmem
      obtain ⟨r, hr, hre⟩ := List.mem_map.mp hmem
      exact (hfree r hr).1 hre

/-- Witness for the amended C9, on the counterexample scenario: attempt 1's
committed values are fresh with respect to the committed rows. -/
theorem c9_fresh_alloc_witness :
    "10.0.0.5" ∉ ipsOf dbC9.hosts ∧ "node-bbbbbb" ∉ hostnamesOf dbC9.hosts :=
  (c9_fresh_alloc cfg29 envC9 reqC9 dbC9 0 hostnameMsg "10.0.0.5" "node-aaaaaa"
    (by rfl)
    (by
      intro u hu h hh
      have hne : ¬(u = 0) := by omega
      show h ∈ (if u = 0 then ([] : List Host) else dbC9.hosts)
      rw [if_neg hne]
      exact hh)).2.2 1 (by decide) "10.0.0.5" "node-bbbbbb" certOk (by rfl)
